import Mathlib

/-!
Verification of the standaardwerk-webapp core pipeline: a shallow embedding
of the DSL parser/validator and of the TIA-Portal netlist generator, with
theorems checking the specification's claims against the code.

Embedding conventions: JavaScript objects become structures, class methods
become functions threading their receiver, the monotonically increasing
`UidManager` becomes an explicit `Nat` state, JS `Map` (insertion ordered)
becomes an association list, and fallible operations return `Option`.
-/

namespace StdWerk

/-! ### Parser data model (src/core/EnhancedLogicParser.js)

Conditions as produced by `EnhancedLogicParser.tryParseCondition`: one object
per parsed condition line. -/

/-- Cross-reference payload of a condition (`(Program SCHRITT 3+4)`). -/
structure CrossReference where
  description : String
  program : String
  steps : List Nat
deriving DecidableEq

/-- Comparison payload of a condition (`lhs OP rhs`). -/
structure Comparison where
  varName : String
  op : String
  value : String
deriving DecidableEq

/-- Condition object built by `EnhancedLogicParser.tryParseCondition`
(src/core/EnhancedLogicParser.js): fields mirror the JS object literal. -/
structure Condition where
  text : String
  negated : Bool
  hasExternalRef : Bool
  crossReference : Option CrossReference
  isTimeCondition : Bool
  timeValue : Option Nat
  timeUnit : Option String
  hasComparison : Bool
  comparison : Option Comparison
  lineNumber : Nat
  operator : String
deriving DecidableEq

/-- Condition group (`type: 'group'` entries of `step.entryConditions`). -/
structure ConditionGroup where
  operator : String
  conditions : List Condition
deriving DecidableEq

/-- Update of `step.entryConditions` performed by
`EnhancedLogicParser.addConditionToStep(step, condition, isOr)`:
an OR condition after at least one collected group starts a new OR group,
a condition with no prior group starts a new AND group, and any other
condition is appended to the last group. -/
def addConditionToStep (entryConditions : List ConditionGroup)
    (condition : Condition) (isOr : Bool) : List ConditionGroup :=
  if isOr ∧ entryConditions ≠ [] then
    entryConditions ++ [⟨"OR", [condition]⟩]
  else if entryConditions = [] then
    entryConditions ++ [⟨"AND", [condition]⟩]
  else
    match entryConditions.getLast? with
    | some lastGroup =>
        entryConditions.dropLast ++
          [⟨lastGroup.operator, lastGroup.conditions ++ [condition]⟩]
    | none => entryConditions

/-- The JS `String.prototype.startsWith` built-in, specified characterwise. -/
def jsStartsWith (s pre : String) : Bool :=
  pre.data.isPrefixOf s.data

/-- Marker analysis of `EnhancedLogicParser.tryParseCondition`: after an
optional leading `-` is stripped, `isOr` holds when the condition text (or
the raw trimmed line) starts with a `+` marker followed by a space. -/
def conditionIsOr (trimmedLine : String) : Bool :=
  let conditionText :=
    if jsStartsWith trimmedLine "-" then (trimmedLine.drop 1).trim
    else trimmedLine
  jsStartsWith conditionText "+ " || jsStartsWith trimmedLine "+ "

/-! ### Step-consistency validation (src/core/UnifiedTextParser.js) -/

/-- Non-sequential transition recorded from a `VON SCHRITT n` declaration. -/
structure VonTransition where
  fromStep : Nat
  isOr : Bool
  conditions : List Condition
deriving DecidableEq

/-- Step object as consumed by `UnifiedTextParser.validateStepLogicConsistency`:
`type` is the string discriminator used by the parser
(`'SCHRITT'` or `'RUST'`). -/
structure VStep where
  type : String
  number : Nat
  lineNumber : Nat
  transitions : List VonTransition
deriving DecidableEq

/-- Diagnostic entry (`result.errors` / `result.warnings` items). -/
structure ValidationIssue where
  type : String
  message : String
  lineNumber : Nat
deriving DecidableEq

/-- Duplicate-step scan of `validateStepLogicConsistency`: walk the steps with
a map of already seen `SCHRITT` numbers, emitting one `DUPLICATE_STEP` error
for each `SCHRITT` step whose number was seen before it. -/
def duplicateStepErrorsAux (seen : List Nat) : List VStep → List ValidationIssue
  | [] => []
  | s :: rest =>
    if s.type = "SCHRITT" then
      if seen.contains s.number then
        ⟨"DUPLICATE_STEP", "Duplicate step number: " ++ toString s.number,
          s.lineNumber⟩ :: duplicateStepErrorsAux (s.number :: seen) rest
      else
        duplicateStepErrorsAux (s.number :: seen) rest
    else
      duplicateStepErrorsAux seen rest

/-- Errors produced by the duplicate-step-number check of
`UnifiedTextParser.validateStepLogicConsistency`. -/
def duplicateStepErrors (steps : List VStep) : List ValidationIssue :=
  duplicateStepErrorsAux [] steps

/-- Warnings produced by the missing-sequential-step check: sort the
`SCHRITT` steps by number and warn on every gap not bridged by an explicit
transition. -/
def missingSequentialWarnings (steps : List VStep) : List ValidationIssue :=
  let schrittSteps :=
    (steps.filter (fun s => s.type = "SCHRITT")).mergeSort
      (fun a b => a.number ≤ b.number)
  (schrittSteps.zip schrittSteps.tail).filterMap fun (previous, current) =>
    if current.number ≠ previous.number + 1 ∧ current.transitions = [] then
      some ⟨"MISSING_SEQUENTIAL_STEP",
        "Gap in sequential steps: " ++ toString previous.number ++ " -> " ++
          toString current.number, current.lineNumber⟩
    else none

/-- Errors produced by the `VON SCHRITT` reference check: each transition of
each step must name a step number present in the program. -/
def invalidVonSchrittErrors (steps : List VStep) : List ValidationIssue :=
  steps.flatMap fun step =>
    step.transitions.filterMap fun transition =>
      if steps.any (fun s => s.number = transition.fromStep) then none
      else some ⟨"INVALID_VON_SCHRITT",
        "VON SCHRITT " ++ toString transition.fromStep ++
          " references non-existent step", step.lineNumber⟩

/-- Full diagnostic output of `UnifiedTextParser.validateStepLogicConsistency`:
the errors list (duplicates, then invalid transitions, in scan order) and the
warnings list.  The function only appends diagnostics; it never aborts. -/
def validateStepLogicConsistency (steps : List VStep) :
    List ValidationIssue × List ValidationIssue :=
  (duplicateStepErrors steps ++ invalidVonSchrittErrors steps,
    missingSequentialWarnings steps)

/-! ### Variable group classification (src/config/validationRules.js) -/

/-- Per-group constraint configuration (`validation` block of a group). -/
structure GroupValidation where
  requiresConditions : Bool
  allowsSetResetTable : Bool
  maxConditions : Nat
deriving Inhabited

/-- One variable-group rule: ordered include patterns and exclude patterns
(compiled regexes in the source, modelled as string predicates; a missing
`excludePatterns` field is the empty list). -/
structure GroupConfig where
  patterns : List (String → Bool)
  excludePatterns : List (String → Bool)
  validation : GroupValidation

/-- Rule set: the `groups` object of the validation-rules configuration, in
declaration order (JS `Object.entries` preserves insertion order). -/
abbrev GroupRules : Type := List (String × GroupConfig)

/-- Loop body of `determineVariableGroup`: a group whose exclude patterns
match is skipped; otherwise the first group with a matching include pattern
wins; when no group matches the result falls back to `'hulpmerker'`. -/
def determineVariableGroupGo (name : String) : GroupRules → Option String
  | [] => some "hulpmerker"
  | (groupName, groupConfig) :: rest =>
    if groupConfig.excludePatterns.any (fun pattern => pattern name) then
      determineVariableGroupGo name rest
    else if groupConfig.patterns.any (fun pattern => pattern name) then
      some groupName
    else
      determineVariableGroupGo name rest

/-- Classification of `determineVariableGroup(name, rules)`
(src/config/validationRules.js): `null` for a falsy (empty) name, else the
first group whose include patterns match and exclude patterns do not, with
`'hulpmerker'` as the default fallback. -/
def determineVariableGroup (name : String) (rules : GroupRules) : Option String :=
  if name = "" then none
  else determineVariableGroupGo name rules

/-- Variable definition record consumed by `validateVariableDefinition`. -/
structure VariableDefinition where
  name : String
  conditions : List Condition
  lineNumber : Nat

/-- Result object of `validateVariableDefinition`. -/
structure VariableValidationResult where
  errors : List ValidationIssue
  warnings : List ValidationIssue
  group : Option String

/-- Validation of a variable definition (`validateVariableDefinition`): a
`null` group yields the `UNKNOWN_GROUP` error; otherwise the group's rules
are checked.  A group name with no entry in the rule set makes the source
dereference `undefined` and throw, modelled as `Except.error`. -/
def validateVariableDefinition (definition : VariableDefinition)
    (rules : GroupRules) : Except String VariableValidationResult :=
  match determineVariableGroup definition.name rules with
  | none =>
    .ok ⟨[⟨"UNKNOWN_GROUP",
      "Cannot determine group for variable: " ++ definition.name,
      definition.lineNumber⟩], [], none⟩
  | some group =>
    match rules.lookup group with
    | none => .error "TypeError: undefined group rules"
    | some groupRules =>
      let errors :=
        if groupRules.validation.requiresConditions ∧
            definition.conditions.length = 0 then
          [⟨"MISSING_CONDITIONS",
            "Variable " ++ definition.name ++ " of group " ++ group ++
              " requires conditions", definition.lineNumber⟩]
        else []
      let warnings :=
        if definition.conditions.length > groupRules.validation.maxConditions then
          [⟨"TOO_MANY_CONDITIONS",
            "Variable " ++ definition.name ++ " has " ++
              toString definition.conditions.length ++
              " conditions, maximum is " ++
              toString groupRules.validation.maxConditions,
            definition.lineNumber⟩]
        else []
      .ok ⟨errors, warnings, some group⟩

/-! ### Generic XML element tree (src/generator/xml-builder.ts)

An `XmlElement` has a name, ordered attributes (values already stringified,
as `String(value)` does at serialization time; `attr` drops
undefined/null values before they reach the list) and ordered children:
nested elements, escaped text leaves, or pre-rendered raw fragments. -/

mutual

inductive XmlElement where
  | mk : String → List (String × String) → List XmlChildEntry → XmlElement

inductive XmlChildEntry where
  | elem : XmlElement → XmlChildEntry
  | textEntry : String → XmlChildEntry
  | raw : String → XmlChildEntry

end

/-- Replacement of every occurrence of the single character `c` by
`replacement`, the behavior of JS `String.replace(/c/g, replacement)` for a
single-character pattern and a replacement with no special `$` sequences. -/
def replaceAllChar (c : Char) (replacement : String) (s : String) : String :=
  ⟨s.data.flatMap fun x => if x = c then replacement.data else [x]⟩

/-- Entity for the apostrophe character. -/
def aposEntity : String :=
  ⟨['&', 'a', 'p', 'o', 's', ';']⟩

/-- Escaping of `XmlElement.escapeXml`: five sequential global replacements,
in source order ampersand, less-than, greater-than, double quote, apostrophe. -/
def escapeXml (s : String) : String :=
  replaceAllChar '\'' aposEntity
    (replaceAllChar '"' "&quot;"
      (replaceAllChar '>' "&gt;"
        (replaceAllChar '<' "&lt;"
          (replaceAllChar '&' "&amp;" s))))

/-- Indentation string `'  '.repeat(level)`. -/
def indentString (level : Nat) : String :=
  String.join (List.replicate level "  ")

mutual

/-- Serialization of `XmlElement.toString(pretty, level)`, abstracted over
the text/attribute escaping function `esc` (the source fixes
`esc := escapeXml`, see `XmlElement.toString` below): childless elements
self-close, a single text child renders inline in pretty mode, and otherwise
children render joined by newlines (pretty) or nothing (compact). -/
def renderElement (esc : String → String) (pretty : Bool) (level : Nat) :
    XmlElement → String
  | .mk name attributes children =>
    let indent := if pretty then indentString level else ""
    let attrs := String.intercalate " "
      (attributes.map fun kv => kv.1 ++ "=\"" ++ esc kv.2 ++ "\"")
    let openTag := indent ++ "<" ++ name ++ (if attrs = "" then "" else " " ++ attrs)
    match children with
    | [] => openTag ++ " />"
    | [.textEntry s] =>
      if pretty then openTag ++ ">" ++ esc s ++ "</" ++ name ++ ">"
      else
        openTag ++ ">" ++
          String.intercalate "" (renderChildList esc false level [.textEntry s]) ++
          "</" ++ name ++ ">"
    | c :: cs =>
      let childrenXml := String.intercalate (if pretty then "\n" else "")
        (renderChildList esc pretty level (c :: cs))
      openTag ++ ">" ++ (if pretty then "\n" else "") ++ childrenXml ++
        (if pretty then "\n" ++ indent else "") ++ "</" ++ name ++ ">"

/-- Rendering of the children array: each child is rendered and the parent
joins the results. -/
def renderChildList (esc : String → String) (pretty : Bool) (level : Nat) :
    List XmlChildEntry → List String
  | [] => []
  | c :: rest =>
    renderChildEntry esc pretty level c :: renderChildList esc pretty level rest

/-- Rendering of one child: raw fragments verbatim, text leaves escaped and
indented two spaces past the parent in pretty mode, element children
recursively at the next level. -/
def renderChildEntry (esc : String → String) (pretty : Bool) (level : Nat) :
    XmlChildEntry → String
  | .raw s => s
  | .textEntry s => (if pretty then indentString level ++ "  " else "") ++ esc s
  | .elem e => renderElement esc pretty (level + 1) e

end

/-- The source serializer: `XmlElement.toString` with its own `escapeXml`. -/
def XmlElement.toString (pretty : Bool) (level : Nat) (e : XmlElement) : String :=
  renderElement escapeXml pretty level e

/-- Spec-side escaping: exactly the five characters ampersand, less-than,
greater-than, double quote and apostrophe are replaced by their entities,
every other character is kept; applied characterwise in one pass. -/
def specEscapeChar (c : Char) : List Char :=
  if c = '&' then "&amp;".data
  else if c = '<' then "&lt;".data
  else if c = '>' then "&gt;".data
  else if c = '"' then "&quot;".data
  else if c = '\'' then aposEntity.data
  else [c]

/-- Spec-side escaping lifted to strings. -/
def specEscape (s : String) : String :=
  ⟨s.data.flatMap specEscapeChar⟩

/-- Spec-side serializer: the same element-tree layout with the spec's
escaping (exactly five characters, raw fragments untouched). -/
def serializeSpec (pretty : Bool) (level : Nat) (e : XmlElement) : String :=
  renderElement specEscape pretty level e

/-! ### Regex cache (src/utils/RegexCache.js) -/

/-- A compiled JS `RegExp`: the immutable compiled fields (pattern source
and flag string) plus the one piece of mutable match state, `lastIndex`,
which is consulted and advanced only by global (`g`) and sticky (`y`)
matchers and persists on the object between calls. -/
structure RegExpObj where
  pattern : String
  flags : String
  lastIndex : Nat
deriving DecidableEq

/-- Valid JS regex flag characters (`d g i m s u v y`). -/
def regExpFlagChars : List Char :=
  ['d', 'g', 'i', 'm', 's', 'u', 'v', 'y']

/-- Duplicate-freeness check for flag characters. -/
def noDupChars : List Char → Bool
  | [] => true
  | c :: rest => !rest.contains c && noDupChars rest

/-- Validity of a JS flag string: only flag characters, none repeated. -/
def validFlags (flags : String) : Bool :=
  flags.data.all (fun c => regExpFlagChars.contains c) && noDupChars flags.data

/-- Model of the JS `new RegExp(pattern, flags)` built-in: an invalid flag
string throws a `SyntaxError` (modelled as `none`); otherwise the compiled
object starts with `lastIndex = 0`. -/
def newRegExp (pattern flags : String) : Option RegExpObj :=
  if validFlags flags then some ⟨pattern, flags, 0⟩ else none

/-- The regex metacharacters: a pattern containing none of them matches as
a plain substring. -/
def regExpSpecialChars : List Char :=
  ['\\', '^', '$', '.', '|', '?', '*', '+', '(', ')', '[', ']', '\x7b', '\x7d']

/-- A literal pattern: no metacharacters, so JS matching of it is plain
substring search. -/
def isLiteralPattern (pattern : String) : Bool :=
  pattern.data.all fun c => !regExpSpecialChars.contains c

/-- First position at or after `start` where the literal pattern occurs in
the input (JS string positions; the repository only caches ASCII
patterns, where UTF-16 units and characters coincide). -/
def litSearch (pat inp : List Char) (start : Nat) : Option Nat :=
  ((List.range (inp.length + 1)).filter
    (fun i => start ≤ i && pat.isPrefixOf (inp.drop i))).head?

/-- The JS `RegExp.prototype.test` built-in, restricted to literal patterns:
matching is substring search; `lastIndex` is used as the start position and
updated (to the match end on success, to 0 on failure) exactly when the
flags hold `g` or `y`; with `y` the match must start at `lastIndex`;
without `g` and `y` the search starts at 0 and `lastIndex` is untouched. -/
def jsTestLit (r : RegExpObj) (input : String) : Bool × RegExpObj :=
  let global := r.flags.data.contains 'g'
  let sticky := r.flags.data.contains 'y'
  if global || sticky then
    let hit :=
      if sticky then
        if r.pattern.data.isPrefixOf (input.data.drop r.lastIndex) &&
            r.lastIndex ≤ input.data.length
        then some (r.lastIndex + r.pattern.data.length) else none
      else
        (litSearch r.pattern.data input.data r.lastIndex).map
          fun i => i + r.pattern.data.length
    match hit with
    | some e => (true, { r with lastIndex := e })
    | none => (false, { r with lastIndex := 0 })
  else
    ((litSearch r.pattern.data input.data 0).isSome, r)

/-- Cache state of `RegexCache`: the JS `Map` keeps insertion order, so it is
modelled as an association list with append at the most-recently-used end. -/
structure RegexCache where
  cache : List (String × RegExpObj)
  maxSize : Nat
  hitCount : Nat
  missCount : Nat
deriving DecidableEq

/-- Cache key template `` `${pattern}:::${flags}` ``. -/
def cacheKey (pattern flags : String) : String :=
  pattern ++ ":::" ++ flags

/-- Step of `RegexCache.getRegex(pattern, flags)`: a hit moves the entry to
the most-recently-used end; a miss compiles (propagating a `SyntaxError` as
`none`), evicts the least-recently-used entry when the cache is full, and
inserts the new entry. -/
def RegexCache.getRegex (rc : RegexCache) (pattern flags : String) :
    Option (RegExpObj × RegexCache) :=
  let k := cacheKey pattern flags
  match rc.cache.lookup k with
  | some regex =>
    some (regex,
      { rc with
        cache := (rc.cache.eraseP fun kv => kv.1 == k) ++ [(k, regex)],
        hitCount := rc.hitCount + 1 })
  | none =>
    match newRegExp pattern flags with
    | none => none
    | some regex =>
      let cache1 := if rc.cache.length ≥ rc.maxSize then rc.cache.tail else rc.cache
      some (regex,
        { rc with
          cache := cache1 ++ [(k, regex)],
          missCount := rc.missCount + 1 })

/-- One client step against the cache: fetch the compiled regex and run
`test` once on `input`. The JS `Map` stores and returns the same `RegExp`
object, so the `lastIndex` update performed by `test` is visible in the
cache entry as well — modelled by writing the updated object back into the
entry the caller got. -/
def RegexCache.useOnce (rc : RegexCache) (pattern flags input : String) :
    Option (Bool × RegexCache) :=
  match rc.getRegex pattern flags with
  | none => none
  | some (r, rc1) =>
    let (res, r1) := jsTestLit r input
    let writeBack := rc1.cache.map fun kv =>
      if kv.1 = cacheKey pattern flags then (kv.1, r1) else kv
    some (res, { rc1 with cache := writeBack })

/-- The uncached behavior: compile a fresh `RegExp` and run `test` once. -/
def freshTest (pattern flags input : String) : Option Bool :=
  (newRegExp pattern flags).map fun r => (jsTestLit r input).1

/-- Invariant of the regex cache contents: every entry was stored by a
successful compilation, so its value records a valid flag string and its key
is the cache key of the value's pattern and flags. -/
def CacheWellFormed (cache : List (String × RegExpObj)) : Prop :=
  ∀ kv ∈ cache, validFlags kv.2.flags = true ∧
    kv.1 = cacheKey kv.2.pattern kv.2.flags

/-! ### Netlist generator data model (src/generator)

`UidManager` (src/generator/uid-manager.ts) is a counter whose `next()`
returns the current value and increments; it is threaded explicitly as a
`Nat` state below. -/

/-- Step type of the generator interface (src/generator/interfaces.ts). -/
inductive StepType where
  | STAP
  | RUST
deriving DecidableEq

/-- A step of the generator's `ParseResult`. -/
structure PStep where
  number : Nat
  type : StepType
  description : String
deriving DecidableEq

/-- Part names registered in `Network.partDefinitions`. -/
inductive PartKind where
  | A
  | Sr
  | Coil
deriving DecidableEq

/-- Input port lists of `Network.partDefinitions`: the A gate declares
thirty ports `in1`..`in30`. -/
def partKindInputs : PartKind → List String
  | .A => (List.range 30).map fun i => "in" ++ toString (i + 1)
  | .Sr => ["s", "r1", "operand"]
  | .Coil => ["in", "operand"]

/-- Output port lists of `Network.partDefinitions`. -/
def partKindOutputs : PartKind → List String
  | .A => ["out"]
  | .Sr => ["q"]
  | .Coil => []

/-- Serialized `Name` attribute of a part. -/
def partKindName : PartKind → String
  | .A => "A"
  | .Sr => "Sr"
  | .Coil => "Coil"

/-- A `Part` (gate/latch/coil) of src/generator/components/part.ts:
`cardinality` starts `null`; `negatedInputs` is a JS `Set`, modelled as a
duplicate-free list in insertion order. -/
structure GatePart where
  id : Nat
  kind : PartKind
  cardinality : Option Nat
  negatedInputs : List String
deriving DecidableEq

/-- An `Access` of src/generator/components/part.ts: a variable/array-index
access, or a literal boolean constant (`varName` empty, `index` null). -/
structure AccessPart where
  id : Nat
  varName : String
  index : Option Nat
  isLiteralBool : Bool
  literalValue : Bool
deriving DecidableEq

/-- Entry of `Network.parts` (`Part | Access`). -/
inductive NetPart where
  | gate : GatePart → NetPart
  | access : AccessPart → NetPart
deriving DecidableEq

/-- A `Wire` of src/generator/components/wire.ts: `fromPort = none` renders
an `IdentCon` endpoint, `some port` a `NameCon` endpoint. -/
structure WireT where
  id : Nat
  fromId : Nat
  fromPort : Option String
  toId : Nat
  toPort : String
deriving DecidableEq

/-- A `MultilingualText` of src/generator/components/multilingual-text.ts:
the constructor takes one id from its manager and stores an `nl-NL` and an
`en-GB` text entry (ids for the items are only taken at serialization). -/
structure MultilingualText where
  id : Nat
  compositionName : String
  texts : List (String × String)
deriving DecidableEq

/-- Construction of a `MultilingualText` (threads the owning manager). -/
def MultilingualText.new (uid : Nat) (compositionName : String)
    (initialText : String) : MultilingualText × Nat :=
  (⟨uid, compositionName, [("nl-NL", initialText), ("en-GB", initialText)]⟩,
    uid + 1)

/-- A `Network` of src/generator/components/network.ts: its `id` comes from
the parent (document) manager; `title`, `comment`, parts and wires draw from
the network's own manager, which starts at the network's `baseUid` and whose
current value is `uidState`. -/
structure Network where
  id : Nat
  title : MultilingualText
  comment : MultilingualText
  parts : List NetPart
  wires : List WireT
  uidState : Nat
deriving DecidableEq

/-- The `Network` constructor: takes one id from the parent manager, starts
an own manager at `baseUid` and creates the title and comment texts from it
(in that order). -/
def Network.new (parentUid : Nat) (titleText : String) (baseUid : Nat) :
    Network × Nat :=
  let (title, u1) := MultilingualText.new baseUid "Title" titleText
  let (comment, u2) := MultilingualText.new u1 "Comment" ""
  (⟨parentUid, title, comment, [], [], u2⟩, parentUid + 1)

/-- `Network.addPart(name)`: a new part with the next own-manager id. -/
def Network.addPart (net : Network) (kind : PartKind) : Network × GatePart :=
  let part : GatePart := ⟨net.uidState, kind, none, []⟩
  ({ net with parts := net.parts ++ [.gate part], uidState := net.uidState + 1 },
    part)

/-- `Network.addAccess(variable, index)`. -/
def Network.addAccess (net : Network) (varName : String) (index : Nat) :
    Network × AccessPart :=
  let access : AccessPart := ⟨net.uidState, varName, some index, false, false⟩
  let net1 := { net with parts := net.parts ++ [.access access], uidState := net.uidState + 1 }
  (net1, access)

/-- `Network.addLiteralBool(value)`. -/
def Network.addLiteralBool (net : Network) (value : Bool) :
    Network × AccessPart :=
  let access : AccessPart := ⟨net.uidState, "", none, true, value⟩
  let net1 := { net with parts := net.parts ++ [.access access], uidState := net.uidState + 1 }
  (net1, access)

/-- `Part.negateInput(portName)`: the port is added to the negated set only
when it is one of the part's declared input ports (otherwise the source just
warns); the JS `Set` ignores re-insertion. -/
def GatePart.negateInput (part : GatePart) (portName : String) : GatePart :=
  if (partKindInputs part.kind).contains portName then
    if part.negatedInputs.contains portName then part
    else { part with negatedInputs := part.negatedInputs ++ [portName] }
  else part

/-- `Network.connect(from, fromPort, to, toPort, options)`: appends a wire
with the next own-manager id and, when `options.negated` is set, negates the
target port on the target part (the source mutates the part object held in
`parts`; part ids are unique within a network, so the update is by id). -/
def Network.connect (net : Network) (fromId : Nat) (fromPort : Option String)
    (toId : Nat) (toPort : String) (negated : Bool) : Network :=
  let wire : WireT := ⟨net.uidState, fromId, fromPort, toId, toPort⟩
  let net1 := { net with wires := net.wires ++ [wire], uidState := net.uidState + 1 }
  if negated then
    { net1 with
      parts := net1.parts.map fun p =>
        match p with
        | .gate g => if g.id = toId then .gate (g.negateInput toPort) else .gate g
        | other => other }
  else net1

/-- Count of wires whose target endpoint is the part id `pid`
(the `partInputCounts` pass of `Network.toXml`). -/
def countWiresTo (wires : List WireT) (pid : Nat) : Nat :=
  wires.countP fun w => w.toId = pid

/-- Two-pass cardinality resolution of `Network.toXml`: after all wires are
built, every `A` part's `cardinality` is set to its incoming wire count. -/
def resolveCardinalities (net : Network) : Network :=
  { net with
    parts := net.parts.map fun p =>
      match p with
      | .gate g =>
        if g.kind = .A then
          .gate { g with cardinality := some (countWiresTo net.wires g.id) }
        else .gate g
      | other => other }

/-! ### Generator interface members (src/generator/components/interface.ts) -/

/-- A `Subelement` comment annotation of an interface member. -/
structure Subelement where
  path : String
  commentText : String
deriving DecidableEq

/-- A `Member` of an interface section. -/
structure Member where
  name : String
  datatype : String
  remanence : String
  subelements : List Subelement
deriving DecidableEq

/-- The six fixed interface sections, in declaration order. -/
structure InterfaceModel where
  inputMembers : List Member
  outputMembers : List Member
  inOutMembers : List Member
  staticMembers : List Member
  tempMembers : List Member
  constantMembers : List Member
deriving DecidableEq

/-! ### Netlist generation (src/generator/index.ts) -/

/-- The `ParseResult` input of the generator (src/generator/interfaces.ts);
`steps` is optional to model a missing list. -/
structure GenParseResult where
  functionBlock : Option String
  steps : Option (List PStep)

/-- Step-bit comment text: `` `${'RUST' | 'STAP n'}: ${description}` ``,
trimmed. -/
def stepCommentText (step : PStep) : String :=
  ((if step.type = .RUST then "RUST" else "STAP " ++ toString step.number) ++
    ": " ++ step.description).trim

/-- The `Stap` static member with one sub-comment per step. -/
def stapMember (steps : List PStep) : Member :=
  ⟨"Stap", "Array[0..31] of Bool", "Retain",
    steps.map fun step => ⟨toString step.number, stepCommentText step⟩⟩

/-- The interface built by `generateTIAPortalXML`: the `Stap` array plus the
fixed static members and the output status word. -/
def buildInterface (steps : List PStep) : InterfaceModel :=
  ⟨[],
    [⟨"Uit_Stap_Tekst", "Int", "", []⟩],
    [],
    [stapMember steps,
      ⟨"Stap_A", "Array[0..31] of Bool", "Retain", []⟩,
      ⟨"Stap_B", "Array[0..31] of Bool", "Retain", []⟩,
      ⟨"Stap_C", "Array[0..31] of Bool", "Retain", []⟩,
      ⟨"Hulp", "Array[1..32] of Bool", "Retain", []⟩,
      ⟨"Tijd", "Array[1..10] of IEC_TIMER", "Retain", []⟩,
      ⟨"Teller", "Array[1..10] of Int", "Retain", []⟩],
    [], []⟩

/-- Accesses `Stap[step.number]` for every sequential step, in order (the
`stepAccesses` map of the RUST network). -/
def addStepAccesses (net : Network) : List PStep → Network × List Nat
  | [] => (net, [])
  | step :: rest =>
    let (net1, access) := net.addAccess "Stap" step.number
    let (net2, ids) := addStepAccesses net1 rest
    (net2, access.id :: ids)

/-- Wires every step access into gate port `in(idx+1)` negated (the
`forEach` over `stepAccesses` of the RUST network). -/
def connectRestInputs (net : Network) (gateId : Nat) (idx : Nat) :
    List Nat → Network
  | [] => net
  | accessId :: rest =>
    connectRestInputs
      (net.connect accessId none gateId ("in" ++ toString (idx + 1)) true)
      gateId (idx + 1) rest

/-- The RUST network (`Netwerk 1: RUST Logic` block of
`generateTIAPortalXML`): an A gate with one negated input per sequential
step bit feeding the set input of an Sr latch, the latch reset by the first
sequential step's bit and operating on `Stap[0]`; base uid 500. -/
def buildRustNetwork (parentUid : Nat) (steps : List PStep) (rustStep : PStep) :
    Network × Nat :=
  let titleText :=
    if rustStep.description = "" then "RUST Logic" else rustStep.description
  let (net, pu) := Network.new parentUid titleText 500
  let stepsToReset := steps.filter fun s => s.type = .STAP
  let (net, accessIds) := addStepAccesses net stepsToReset
  let (net, aGateRust) := net.addPart .A
  let net := connectRestInputs net aGateRust.id 0 accessIds
  let (net, srRust) := net.addPart .Sr
  let net :=
    match steps.find? (fun s => s.type = .STAP) with
    | some firstStep =>
      let (net1, step1Access) := net.addAccess "Stap" firstStep.number
      net1.connect step1Access.id none srRust.id "r1" false
    | none => net
  let net := net.connect aGateRust.id (some "out") srRust.id "s" false
  let (net, srRustOperand) := net.addAccess "Stap" 0
  let net := net.connect srRustOperand.id none srRust.id "operand" false
  (net, pu)

/-- One sequential-step network (the `normalSteps.forEach` body): a 3-input
A gate over previous-step bit, negated current-step bit and a literal false,
feeding either a coil (final step) or an Sr latch reset by the next step's
bit. -/
def buildStepNetwork (parentUid : Nat) (baseUid : Nat) (prevStepNumber : Nat)
    (step : PStep) (next : Option Nat) : Network × Nat :=
  let title := "STAP " ++ toString step.number ++ ": " ++ step.description
  let (net, pu) := Network.new parentUid title baseUid
  let (net, prevStepAccess) := net.addAccess "Stap" prevStepNumber
  let (net, notCurrentStepAccess) := net.addAccess "Stap" step.number
  let (net, falseAccess) := net.addLiteralBool false
  let (net, conditionGate) := net.addPart .A
  let net := net.connect prevStepAccess.id none conditionGate.id "in1" false
  let net := net.connect notCurrentStepAccess.id none conditionGate.id "in2" true
  let net := net.connect falseAccess.id none conditionGate.id "in3" false
  match next with
  | none =>
    let (net, coil) := net.addPart .Coil
    let (net, coilOperand) := net.addAccess "Stap" step.number
    let net := net.connect conditionGate.id (some "out") coil.id "in" false
    let net := net.connect coilOperand.id none coil.id "operand" false
    (net, pu)
  | some nextNumber =>
    let (net, srBlock) := net.addPart .Sr
    let (net, resetStepAccess) := net.addAccess "Stap" nextNumber
    let (net, srOperand) := net.addAccess "Stap" step.number
    let net := net.connect conditionGate.id (some "out") srBlock.id "s" false
    let net := net.connect resetStepAccess.id none srBlock.id "r1" false
    let net := net.connect srOperand.id none srBlock.id "operand" false
    (net, pu)

/-- The sequence of sequential-step networks: the i-th network gets base uid
`1000 + i*100`; the previous-step number is 0 for the first network and the
preceding step's number after; the last network has no successor. -/
def buildStepNetworks (parentUid : Nat) (idx : Nat) (prevStepNumber : Nat) :
    List PStep → List Network × Nat
  | [] => ([], parentUid)
  | [step] =>
    let (net, pu) :=
      buildStepNetwork parentUid (1000 + idx * 100) prevStepNumber step none
    ([net], pu)
  | step :: nextStep :: rest =>
    let (net, pu) := buildStepNetwork parentUid (1000 + idx * 100)
      prevStepNumber step (some nextStep.number)
    let (nets, pu2) :=
      buildStepNetworks pu (idx + 1) step.number (nextStep :: rest)
    (net :: nets, pu2)

/-- Digit accumulation of `parseInt` on a digit-only string. -/
def digitsVal (digits : List Char) : Nat :=
  digits.foldl (fun acc c => acc * 10 + (c.toNat - 48)) 0

/-- `parseInt(name.replace(/[^0-9]/g, '')) || 1` of the `FunctionBlock`
constructor: the digits of the name, with 0 (and the no-digit NaN case)
falling back to 1. -/
def fbNumberFromName (name : String) : Nat :=
  let n := digitsVal (name.data.filter Char.isDigit)
  if n = 0 then 1 else n

/-- The generated document: the function block's own ids, interface,
networks, and the document manager state after construction. -/
structure GenDocument where
  fbId : Nat
  fbName : String
  fbComment : MultilingualText
  fbTitle : MultilingualText
  iface : InterfaceModel
  networks : List Network
  uidState : Nat
deriving DecidableEq

/-- Document construction of `generateTIAPortalXML` for a non-empty steps
list: the `Document` manager starts at 0; `addFb` takes the block id and
creates comment and title; the RUST network (base 500) is built when a RUST
step exists; then one network per sequential step. -/
def buildDocument (functionBlock : Option String) (steps : List PStep) :
    GenDocument :=
  let fbId := 0
  let fbName :=
    match functionBlock with
    | some s => if s = "" then "FB1" else s
    | none => "FB1"
  let (fbComment, u2) := MultilingualText.new 1 "Comment" ""
  let (fbTitle, u3) := MultilingualText.new u2 "Title" ""
  let iface := buildInterface steps
  let (rustNetworks, u4) :=
    match steps.find? (fun s => s.type = .RUST) with
    | some rustStep =>
      let (net, pu) := buildRustNetwork u3 steps rustStep
      ([net], pu)
    | none => ([], u3)
  let normalSteps := steps.filter fun s => s.type = .STAP
  let (stepNetworks, u5) := buildStepNetworks u4 0 0 normalSteps
  ⟨fbId, fbName, fbComment, fbTitle, iface, rustNetworks ++ stepNetworks, u5⟩

/-! ### Generator serialization

Each component's `toXml` builds an `XmlElement` tree and renders it with
`XmlElement.toString`; parents splice child output with `addRaw`.
`MultilingualText.toXml` draws one id per text item from its owning manager
at serialization time, so those functions thread the manager state. -/

/-- Items of `MultilingualText.toXml`: one `MultilingualTextItem` per stored
text, each taking the next manager id. -/
def mtItems (uid : Nat) : List (String × String) → List XmlElement × Nat
  | [] => ([], uid)
  | (lang, text) :: rest =>
    let item := XmlElement.mk "MultilingualTextItem"
      [("ID", toString uid), ("CompositionName", "Items")]
      [.elem (XmlElement.mk "AttributeList" []
        [.elem (XmlElement.mk "Culture" [] [.textEntry lang]),
          .elem (XmlElement.mk "Text" [] [.textEntry text])])]
    let (items, u1) := mtItems (uid + 1) rest
    (item :: items, u1)

/-- `MultilingualText.toXml(pretty, level)`: the wrapping element carries the
construction-time `ID`; the items draw fresh ids from the manager. -/
def MultilingualText.toXml (mt : MultilingualText) (uid : Nat) (pretty : Bool)
    (level : Nat) : String × Nat :=
  let (items, u1) := mtItems uid mt.texts
  let objectList := XmlElement.mk "ObjectList" [] (items.map .elem)
  let multiText := XmlElement.mk "MultilingualText"
    [("ID", toString mt.id), ("CompositionName", mt.compositionName)]
    [.elem objectList]
  (XmlElement.toString pretty level multiText, u1)

/-- Element tree built by `Part.toXml`: the `TemplateValue` cardinality
child is emitted only for an assigned, strictly positive cardinality; one
`Negated` child per negated input port. -/
def GatePart.toXmlTree (part : GatePart) : XmlElement :=
  let cardChildren : List XmlChildEntry :=
    match part.cardinality with
    | some c =>
      if c > 0 then
        [.elem (XmlElement.mk "TemplateValue"
          [("Name", "Card"), ("Type", "Cardinality")]
          [.textEntry (toString c)])]
      else []
    | none => []
  let negatedChildren : List XmlChildEntry :=
    part.negatedInputs.map fun portName =>
      .elem (XmlElement.mk "Negated" [("Name", portName)] [])
  XmlElement.mk "Part"
    [("Name", partKindName part.kind), ("UId", toString part.id)]
    (cardChildren ++ negatedChildren)

/-- `Part.toXml`: the rendered part element. -/
def GatePart.toXml (part : GatePart) (pretty : Bool) (level : Nat) : String :=
  XmlElement.toString pretty level part.toXmlTree

/-- Observer on element children: the text content of the first
`TemplateValue` child, when one is present. -/
def templateValueOfChildren : List XmlChildEntry → Option String
  | [] => none
  | .elem (.mk childName _ [.textEntry value]) :: rest =>
    if childName = "TemplateValue" then some value
    else templateValueOfChildren rest
  | _ :: rest => templateValueOfChildren rest

/-- Observer on a serialized part element: the text content of its
`TemplateValue` child, when one is present. -/
def templateValueOf (e : XmlElement) : Option String :=
  match e with
  | .mk _ _ children => templateValueOfChildren children

/-- `Access.toXml`: a literal boolean constant or an array-component access
(`String(null)` never occurs for the latter because `addAccess` always sets
an index; it is still rendered faithfully as `"null"`). -/
def AccessPart.toXml (access : AccessPart) (pretty : Bool) (level : Nat) :
    String :=
  if access.isLiteralBool then
    XmlElement.toString pretty level
      (XmlElement.mk "Access"
        [("Scope", "LiteralConstant"), ("UId", toString access.id)]
        [.elem (XmlElement.mk "Constant" []
          [.elem (XmlElement.mk "ConstantType" [] [.textEntry "Bool"]),
            .elem (XmlElement.mk "ConstantValue" []
              [.textEntry (toString access.literalValue)])])])
  else
    let indexText :=
      match access.index with
      | some i => toString i
      | none => "null"
    let constant := XmlElement.mk "Constant" []
      [.elem (XmlElement.mk "ConstantType" [] [.textEntry "DInt"]),
        .elem (XmlElement.mk "ConstantValue" [] [.textEntry indexText])]
    let innerAccess := XmlElement.mk "Access" [("Scope", "LiteralConstant")]
      [.elem constant]
    let component := XmlElement.mk "Component"
      [("Name", access.varName), ("AccessModifier", "Array")]
      [.elem innerAccess]
    let symbol := XmlElement.mk "Symbol" [] [.elem component]
    XmlElement.toString pretty level
      (XmlElement.mk "Access"
        [("Scope", "LocalVariable"), ("UId", toString access.id)]
        [.elem symbol])

/-- Serialization of a `Network.parts` entry. -/
def NetPart.toXml (part : NetPart) (pretty : Bool) (level : Nat) : String :=
  match part with
  | .gate g => g.toXml pretty level
  | .access a => a.toXml pretty level

/-- `Wire.toXml`: an `IdentCon` source endpoint when the source port is
absent, `NameCon` otherwise; the target endpoint is always a `NameCon`. -/
def WireT.toXml (wire : WireT) (pretty : Bool) (level : Nat) : String :=
  let fromChild : XmlChildEntry :=
    match wire.fromPort with
    | some port =>
      .elem (XmlElement.mk "NameCon"
        [("UId", toString wire.fromId), ("Name", port)] [])
    | none => .elem (XmlElement.mk "IdentCon" [("UId", toString wire.fromId)] [])
  let toChild : XmlChildEntry :=
    .elem (XmlElement.mk "NameCon"
      [("UId", toString wire.toId), ("Name", wire.toPort)] [])
  XmlElement.toString pretty level
    (XmlElement.mk "Wire" [("UId", toString wire.id)] [fromChild, toChild])

/-- `Network.toXml`: cardinalities are resolved first, then parts and wires
are rendered (at level+5) into the `FlgNet` containers, and the comment and
title texts are serialized last, drawing item ids from the network's own
manager. -/
def Network.toXml (net : Network) (pretty : Bool) (level : Nat) : String :=
  let rnet := resolveCardinalities net
  let partsContainer := XmlElement.mk "Parts" []
    (rnet.parts.map fun p => .raw (p.toXml pretty (level + 5)))
  let wiresContainer := XmlElement.mk "Wires" []
    (rnet.wires.map fun w => .raw (w.toXml pretty (level + 5)))
  let flgNet := XmlElement.mk "FlgNet"
    [("xmlns",
      "http://www.siemens.com/automation/Openness/SW/NetworkSource/FlgNet/v4")]
    [.elem partsContainer, .elem wiresContainer]
  let networkSource := XmlElement.mk "NetworkSource" [] [.elem flgNet]
  let attributeList := XmlElement.mk "AttributeList" []
    [.elem networkSource,
      .elem (XmlElement.mk "ProgrammingLanguage" [] [.textEntry "FBD"])]
  let (commentXml, u1) := rnet.comment.toXml rnet.uidState pretty (level + 3)
  let (titleXml, _) := rnet.title.toXml u1 pretty (level + 3)
  let objectList := XmlElement.mk "ObjectList" [] [.raw commentXml, .raw titleXml]
  XmlElement.toString pretty level
    (XmlElement.mk "SW.Blocks.CompileUnit"
      [("ID", toString rnet.id), ("CompositionName", "CompileUnits")]
      [.elem attributeList, .elem objectList])

/-- `Subelement.toXml`: the simple comment structure. -/
def Subelement.toXml (sub : Subelement) (pretty : Bool) (level : Nat) : String :=
  XmlElement.toString pretty level
    (XmlElement.mk "Subelement" [("Path", sub.path)]
      [.elem (XmlElement.mk "Comment" []
        [.elem (XmlElement.mk "MultiLanguageText" [("Lang", "nl-NL")]
          [.textEntry sub.commentText])])])

/-- `Member.toXml`: the `Remanence` attribute only when non-empty. -/
def Member.toXml (member : Member) (pretty : Bool) (level : Nat) : String :=
  let attrs := [("Name", member.name), ("Datatype", member.datatype)] ++
    (if member.remanence = "" then [] else [("Remanence", member.remanence)])
  XmlElement.toString pretty level
    (XmlElement.mk "Member" attrs
      (member.subelements.map fun sub => .raw (sub.toXml pretty (level + 1))))

/-- `Section.toXml` for a non-empty section. -/
def sectionToXml (name : String) (members : List Member) (pretty : Bool)
    (level : Nat) : String :=
  XmlElement.toString pretty level
    (XmlElement.mk "Section" [("Name", name)]
      (members.map fun m => .raw (m.toXml pretty (level + 1))))

/-- Child of the `Sections` element for one section: rendered members when
non-empty, a self-closing `Section` element otherwise. -/
def sectionChild (name : String) (members : List Member) (pretty : Bool)
    (level : Nat) : XmlChildEntry :=
  if members.isEmpty then .elem (XmlElement.mk "Section" [("Name", name)] [])
  else .raw (sectionToXml name members pretty (level + 1))

/-- `Interface.toXml`: the six sections in declaration order inside the
namespaced `Sections` element. -/
def interfaceToXml (iface : InterfaceModel) (pretty : Bool) (level : Nat) :
    String :=
  let sectionsEl := XmlElement.mk "Sections"
    [("xmlns", "http://www.siemens.com/automation/Openness/SW/Interface/v5")]
    [sectionChild "Input" iface.inputMembers pretty level,
      sectionChild "Output" iface.outputMembers pretty level,
      sectionChild "InOut" iface.inOutMembers pretty level,
      sectionChild "Static" iface.staticMembers pretty level,
      sectionChild "Temp" iface.tempMembers pretty level,
      sectionChild "Constant" iface.constantMembers pretty level]
  XmlElement.toString pretty level
    (XmlElement.mk "Interface" [] [.elem sectionsEl])

/-- `FunctionBlock.toXml(pretty, level)`: the attribute list (with the
interface spliced raw), then the object list holding the comment, every
network and the title; the comment and title items draw ids from the
document manager, which resumes after network construction. -/
def GenDocument.fbToXml (doc : GenDocument) (pretty : Bool) (level : Nat) :
    String :=
  let (commentXml, u1) := doc.fbComment.toXml doc.uidState pretty (level + 3)
  let networkXmls := doc.networks.map fun n => n.toXml pretty (level + 3)
  let (titleXml, _) := doc.fbTitle.toXml u1 pretty (level + 3)
  let attrList := XmlElement.mk "AttributeList" []
    [.elem (XmlElement.mk "AutoNumber" [] [.textEntry "false"]),
      .raw (interfaceToXml doc.iface pretty (level + 2)),
      .elem (XmlElement.mk "IsRetainMemResEnabled" [] [.textEntry "true"]),
      .elem (XmlElement.mk "MemoryLayout" [] [.textEntry "Optimized"]),
      .elem (XmlElement.mk "MemoryReserve" [] [.textEntry "4000"]),
      .elem (XmlElement.mk "Name" [] [.textEntry doc.fbName]),
      .elem (XmlElement.mk "Namespace" [] []),
      .elem (XmlElement.mk "Number" []
        [.textEntry (toString (fbNumberFromName doc.fbName))]),
      .elem (XmlElement.mk "ProgrammingLanguage" [] [.textEntry "FBD"]),
      .elem (XmlElement.mk "RetainMemoryReserve" [] [.textEntry "4000"]),
      .elem (XmlElement.mk "SetENOAutomatically" [] [.textEntry "true"])]
  let objectList := XmlElement.mk "ObjectList" []
    ([.raw commentXml] ++ networkXmls.map .raw ++ [.raw titleXml])
  XmlElement.toString pretty level
    (XmlElement.mk "SW.Blocks.FB" [("ID", toString doc.fbId)]
      [.elem attrList, .elem objectList])

/-- The XML declaration prepended by `Document.toXml`. -/
def xmlDeclaration : String :=
  "<?xml version=\"1.0\" encoding=\"utf-8\"?>\n"

/-- `Document.toXml(pretty)`: declaration plus the `Document` element with
the engineering version and the function block spliced raw at level 1. -/
def documentToXml (doc : GenDocument) (pretty : Bool) : String :=
  let docEl := XmlElement.mk "Document" []
    [.elem (XmlElement.mk "Engineering" [("version", "V18")] []),
      .raw (doc.fbToXml pretty 1)]
  xmlDeclaration ++ XmlElement.toString pretty 0 docEl

/-- The comment string returned when there are no steps to compile. -/
def noStepsComment : String :=
  "<!-- Geen stappen gevonden om te compileren. -->"

/-- `generateTIAPortalXML(parseResult)`: the guard returns the no-steps
comment for a missing result, a missing steps list or an empty steps list;
otherwise the document is built and rendered pretty. -/
def generateTIAPortalXML (parseResult : Option GenParseResult) : String :=
  match parseResult with
  | none => noStepsComment
  | some pr =>
    match pr.steps with
    | none => noStepsComment
    | some [] => noStepsComment
    | some (step :: rest) =>
      documentToXml (buildDocument pr.functionBlock (step :: rest)) true

/-! ### Identifier inventory

All `ID`/`UId` attribute values declared in the serialized document, in
allocation order per manager: the document manager's ids (block id, comment
and title ids, one id per network, and the four text-item ids drawn at
serialization), then each network's own-manager ids (title and comment ids,
part and wire ids, and the four text-item ids drawn at serialization). -/

/-- Id of a parts-list entry. -/
def NetPart.partId : NetPart → Nat
  | .gate g => g.id
  | .access a => a.id

/-- Identifiers serialized from one network's own manager. -/
def networkLocalUids (net : Network) : List Nat :=
  net.title.id :: net.comment.id ::
    (net.parts.map NetPart.partId ++ net.wires.map WireT.id ++
      [net.uidState, net.uidState + 1, net.uidState + 2, net.uidState + 3])

/-- Every identifier declared in the serialized document. -/
def documentUids (doc : GenDocument) : List Nat :=
  ([doc.fbId, doc.fbComment.id, doc.fbTitle.id] ++ doc.networks.map Network.id ++
      [doc.uidState, doc.uidState + 1, doc.uidState + 2, doc.uidState + 3]) ++
    doc.networks.flatMap networkLocalUids

/-! ### Structural observers and test programs used by the theorems -/

/-- Ports `in1`..`inN`. -/
def restPorts (n : Nat) : List String :=
  (List.range n).map fun i => "in" ++ toString (i + 1)

/-- A network that drives a set/reset latch: it holds an A gate and an Sr
latch with a wire from the gate's `out` port to the latch's `s` port. -/
def IsLatchNetwork (net : Network) : Prop :=
  ∃ g sr, NetPart.gate g ∈ net.parts ∧ g.kind = .A ∧
    NetPart.gate sr ∈ net.parts ∧ sr.kind = .Sr ∧
    ∃ w ∈ net.wires, w.fromId = g.id ∧ w.fromPort = some "out" ∧
      w.toId = sr.id ∧ w.toPort = "s"

/-- A Rest network for `n` sequential steps: its A gate carries one negated
input port per sequential step and feeds the set input of an Sr latch. -/
def IsRestNetwork (n : Nat) (net : Network) : Prop :=
  ∃ g sr, NetPart.gate g ∈ net.parts ∧ g.kind = .A ∧
    g.negatedInputs = restPorts n ∧
    NetPart.gate sr ∈ net.parts ∧ sr.kind = .Sr ∧
    ∃ w ∈ net.wires, w.fromId = g.id ∧ w.fromPort = some "out" ∧
      w.toId = sr.id ∧ w.toPort = "s"

/-- A terminal network: its A gate drives a coil, it holds no Sr latch, and
no wire targets a reset port `r1`. -/
def IsTerminalCoilNetwork (net : Network) : Prop :=
  (∃ g coil, NetPart.gate g ∈ net.parts ∧ g.kind = .A ∧
    NetPart.gate coil ∈ net.parts ∧ coil.kind = .Coil ∧
    ∃ w ∈ net.wires, w.fromId = g.id ∧ w.fromPort = some "out" ∧
      w.toId = coil.id ∧ w.toPort = "in") ∧
  (∀ g, NetPart.gate g ∈ net.parts → g.kind ≠ .Sr) ∧
  (∀ w ∈ net.wires, w.toPort ≠ "r1")

/-- Identifiers a network holds after construction (before the four
serialization-time text-item ids are drawn). -/
def netCoreUids (net : Network) : List Nat :=
  net.title.id :: net.comment.id ::
    (net.parts.map NetPart.partId ++ net.wires.map WireT.id)

/-- Allocation invariant of a network's own manager: ids start at the
reserved `baseUid`, stay below the current manager value, and are pairwise
distinct. -/
def NetUidInv (base : Nat) (net : Network) : Prop :=
  base ≤ net.uidState ∧ (netCoreUids net).Nodup ∧
    ∀ x ∈ netCoreUids net, base ≤ x ∧ x < net.uidState

/-- Test program: one RUST step followed by `n` sequential steps. -/
def sampleProgram (n : Nat) : List PStep :=
  ⟨0, .RUST, ""⟩ :: (List.range n).map fun i => ⟨i + 1, .STAP, ""⟩

/-- Number of sequential (`SCHRITT`) steps declaring the number `n`. -/
def schrittNumberCount (steps : List VStep) (n : Nat) : Nat :=
  steps.countP fun s => s.type == "SCHRITT" && s.number == n

/-- The `DUPLICATE_STEP` error for step number `n` at line `line`. -/
def duplicateStepIssue (n : Nat) (line : Nat) : ValidationIssue :=
  ⟨"DUPLICATE_STEP", "Duplicate step number: " ++ toString n, line⟩

/-! ## Theorems -/

/-- Helper: the classification loop always produces a group. -/
theorem determineVariableGroupGo_isSome (name : String) :
    ∀ rules : GroupRules, ∃ g, determineVariableGroupGo name rules = some g := by
  intro rules
  induction rules with
  | nil => exact ⟨"hulpmerker", rfl⟩
  | cons gc rest ih =>
    obtain ⟨g, hg⟩ := ih
    by_cases hex : gc.2.excludePatterns.any (fun pattern => pattern name) = true
    · exact ⟨g, by simpa [determineVariableGroupGo, hex] using hg⟩
    · by_cases hinc : gc.2.patterns.any (fun pattern => pattern name) = true
      · exact ⟨gc.1, by simp [determineVariableGroupGo, hex, hinc]⟩
      · exact ⟨g, by simpa [determineVariableGroupGo, hex, hinc] using hg⟩

/-- Helper: with no matching include pattern the loop falls through to the
default group. -/
theorem determineVariableGroupGo_default (name : String) :
    ∀ rules : GroupRules,
      (∀ gc ∈ rules, ∀ p ∈ gc.2.patterns, p name = false) →
      determineVariableGroupGo name rules = some "hulpmerker" := by
  intro rules hnone
  induction rules with
  | nil => rfl
  | cons gc rest ih =>
    have hrest : ∀ gc' ∈ rest, ∀ p ∈ gc'.2.patterns, p name = false := by
      intro gc' hmem p hp
      exact hnone gc' (List.mem_cons_of_mem _ hmem) p hp
    have hinc : gc.2.patterns.any (fun pattern => pattern name) = false := by
      simp only [List.any_eq_false]
      intro p hp
      simp [hnone gc (List.mem_cons_self _ _) p hp]
    by_cases hex : gc.2.excludePatterns.any (fun pattern => pattern name) = true
    · simpa [determineVariableGroupGo, hex] using ih hrest
    · simpa [determineVariableGroupGo, hex, hinc] using ih hrest

/-- C10: for a non-empty variable name, group classification always yields a
group; an exclude-pattern match only skips that group; with no matching
include pattern the default group `hulpmerker` results; consequently the
`UNKNOWN_GROUP` error branch of `validateVariableDefinition` is unreachable
for non-empty names. -/
theorem variableGroupClassificationTotal (rules : GroupRules)
    (d : VariableDefinition) (h : d.name ≠ "") :
    (∃ g, determineVariableGroup d.name rules = some g) ∧
    ((∀ gc ∈ rules, ∀ p ∈ gc.2.patterns, p d.name = false) →
      determineVariableGroup d.name rules = some "hulpmerker") ∧
    (∀ gname cfg rest, cfg.excludePatterns.any (fun p => p d.name) = true →
      determineVariableGroupGo d.name ((gname, cfg) :: rest) =
        determineVariableGroupGo d.name rest) ∧
    (∀ r, validateVariableDefinition d rules = .ok r →
      ∀ e ∈ r.errors, e.type ≠ "UNKNOWN_GROUP") := by
  refine ⟨?_, ?_, ?_, ?_⟩
  · simpa [determineVariableGroup, h] using determineVariableGroupGo_isSome d.name rules
  · intro hnone
    simpa [determineVariableGroup, h] using
      determineVariableGroupGo_default d.name rules hnone
  · intro gname cfg rest hex
    simp [determineVariableGroupGo, hex]
  · intro r hr e he
    obtain ⟨g, hg⟩ := determineVariableGroupGo_isSome d.name rules
    have hdet : determineVariableGroup d.name rules = some g := by
      simpa [determineVariableGroup, h] using hg
    rcases hlook : rules.lookup g with _ | cfg
    · simp [validateVariableDefinition, hdet, hlook] at hr
    · simp only [validateVariableDefinition, hdet, hlook, Except.ok.injEq] at hr
      have herr : e ∈ r.errors := he
      rw [← hr] at herr
      by_cases hreq : cfg.validation.requiresConditions = true ∧
          d.conditions.length = 0
      · simp only [if_pos hreq, List.mem_singleton] at herr
        subst herr
        simp
      · simp only [if_neg hreq] at herr
        exact absurd herr (List.not_mem_nil e)

/-- Witness for the classification theorem at a concrete name and rule set. -/
theorem variableGroupClassificationTotal_witness :
    ∃ g, determineVariableGroup "Motor aan =" [] = some g :=
  (variableGroupClassificationTotal [] ⟨"Motor aan =", [], 3⟩ (by decide)).1

/-- C5: a `+ `-marked condition line is recognized as an OR condition; such
a condition after at least one collected group starts a new OR group with
that condition alone appended as a sibling, while with no prior group it
starts a fresh AND group with that condition alone (and no error results:
`addConditionToStep` always returns an updated group list). -/
theorem plusConditionGrouping (s : String) (c : Condition)
    (gs : List ConditionGroup) :
    conditionIsOr ("+ " ++ s) = true ∧
    (gs ≠ [] → addConditionToStep gs c true = gs ++ [⟨"OR", [c]⟩]) ∧
    addConditionToStep [] c true = [⟨"AND", [c]⟩] := by
  refine ⟨?_, fun hne => ?_, ?_⟩
  · simp [conditionIsOr, jsStartsWith, String.data_append, List.isPrefixOf]
  · simp [addConditionToStep, hne]
  · simp [addConditionToStep]

/-- Witness for the condition-grouping theorem at a concrete line, condition
and prior group list. -/
theorem plusConditionGrouping_witness :
    addConditionToStep
        [⟨"AND", [⟨"Klep open", false, false, none, false, none, none, false,
          none, 4, "AND"⟩]⟩]
        ⟨"Pomp aan", false, false, none, false, none, none, false, none, 5,
          "OR"⟩ true =
      [⟨"AND", [⟨"Klep open", false, false, none, false, none, none, false,
          none, 4, "AND"⟩]⟩,
        ⟨"OR", [⟨"Pomp aan", false, false, none, false, none, none, false,
          none, 5, "OR"⟩]⟩] :=
  (plusConditionGrouping "Pomp aan"
      ⟨"Pomp aan", false, false, none, false, none, none, false, none, 5, "OR"⟩
      [⟨"AND", [⟨"Klep open", false, false, none, false, none, none, false,
        none, 4, "AND"⟩]⟩]).2.1 (by simp)

/-- Helper: counting a cons cell. -/
theorem schrittNumberCount_cons (s : VStep) (rest : List VStep) (m : Nat) :
    schrittNumberCount (s :: rest) m =
      (if s.type = "SCHRITT" ∧ s.number = m then 1 else 0) +
        schrittNumberCount rest m := by
  by_cases h : s.type = "SCHRITT" ∧ s.number = m
  · simp [schrittNumberCount, List.countP_cons, h.1, h.2, Nat.add_comm]
  · have : (s.type == "SCHRITT" && s.number == m) = false := by
      rcases Decidable.not_and_iff_or_not.1 h with h1 | h1 <;> simp [h1]
    simp [schrittNumberCount, List.countP_cons, this, h]

/-- Helper: the contains test on the seen list, as membership. -/
theorem seenContains_eq (seen : List Nat) (m : Nat) :
    seen.contains m = decide (m ∈ seen) := by
  simp [List.contains]

/-- Helper: with every pending number absent and every number at most once,
the duplicate scan reports nothing. -/
theorem duplicateStepErrorsAux_nil (steps : List VStep) :
    ∀ seen : List Nat,
      (∀ m ∈ seen, schrittNumberCount steps m = 0) →
      (∀ m, schrittNumberCount steps m ≤ 1) →
      duplicateStepErrorsAux seen steps = [] := by
  induction steps with
  | nil => intro seen _ _; rfl
  | cons s rest ih =>
    intro seen hseen hcount
    have hcons := fun m => schrittNumberCount_cons s rest m
    by_cases hs : s.type = "SCHRITT"
    · have hnotseen : ¬ s.number ∈ seen := by
        intro hc
        have h0 := hseen s.number hc
        rw [hcons s.number] at h0
        simp [hs] at h0
      have hrec : duplicateStepErrorsAux (s.number :: seen) rest = [] := by
        refine ih (s.number :: seen) ?_ ?_
        · intro m hm
          rcases List.mem_cons.1 hm with hm' | hm'
          · rw [hm']
            have := hcount s.number
            rw [hcons s.number] at this
            simp only [hs, true_and, and_self, if_true] at this
            omega
          · have := hseen m hm'
            rw [hcons m] at this
            omega
        · intro m
          have := hcount m
          rw [hcons m] at this
          omega
      simp [duplicateStepErrorsAux, hs, seenContains_eq, hnotseen, hrec]
    · have hrec : duplicateStepErrorsAux seen rest = [] := by
        refine ih seen ?_ ?_
        · intro m hm
          have := hseen m hm
          rw [hcons m] at this
          omega
        · intro m
          have := hcount m
          rw [hcons m] at this
          omega
      simp [duplicateStepErrorsAux, hs, hrec]

/-- Helper: the schritt-number count is the length of the corresponding
filter. -/
theorem schrittNumberCount_eq_filter_length (steps : List VStep) (n : Nat) :
    schrittNumberCount steps n =
      (steps.filter fun s => s.type == "SCHRITT" && s.number == n).length :=
  (List.countP_eq_length_filter _ _)

/-- Helper: a duplicate already seen is reported exactly once, at the line
of its (unique) remaining declaration. -/
theorem duplicateStepErrorsAux_pending (steps : List VStep) :
    ∀ (seen : List Nat) (n : Nat) (b : VStep),
      steps.filter (fun s => s.type == "SCHRITT" && s.number == n) = [b] →
      n ∈ seen →
      (∀ m ∈ seen, m ≠ n → schrittNumberCount steps m = 0) →
      (∀ m, m ≠ n → schrittNumberCount steps m ≤ 1) →
      duplicateStepErrorsAux seen steps = [duplicateStepIssue n b.lineNumber] := by
  induction steps with
  | nil => intro seen n b hfilter _ _ _; simp at hfilter
  | cons s rest ih =>
    intro seen n b hfilter hn hseen hcount
    have hcons := fun m => schrittNumberCount_cons s rest m
    by_cases pn : (s.type == "SCHRITT" && s.number == n) = true
    · obtain ⟨hs, hnum⟩ : s.type = "SCHRITT" ∧ s.number = n := by simpa using pn
      rw [List.filter_cons, if_pos pn] at hfilter
      have hb : s = b := (List.cons_eq_cons.1 hfilter).1
      have hrestf : rest.filter (fun s => s.type == "SCHRITT" && s.number == n) = [] :=
        (List.cons_eq_cons.1 hfilter).2
      have hrest0 : schrittNumberCount rest n = 0 := by
        rw [schrittNumberCount_eq_filter_length, hrestf]
        rfl
      have hrec : duplicateStepErrorsAux (s.number :: seen) rest = [] := by
        refine duplicateStepErrorsAux_nil rest (s.number :: seen) ?_ ?_
        · intro m hm
          rcases List.mem_cons.1 hm with hm' | hm'
          · rw [hm', hnum]; exact hrest0
          · by_cases hmn : m = n
            · rw [hmn]; exact hrest0
            · have := hseen m hm' hmn
              rw [hcons m] at this
              omega
        · intro m
          by_cases hmn : m = n
          · rw [hmn]; omega
          · have := hcount m hmn
            rw [hcons m] at this
            omega
      have hcontains : seen.contains s.number = true := by
        rw [seenContains_eq, hnum]
        simpa using hn
      have hbn : b.number = n := hb ▸ hnum
      simp only [duplicateStepErrorsAux, if_pos hs, hcontains, if_true, hrec]
      rw [hb, hbn]
      rfl
    · have hskip : rest.filter (fun s => s.type == "SCHRITT" && s.number == n) = [b] := by
        rw [List.filter_cons, if_neg pn] at hfilter
        exact hfilter
      by_cases hs : s.type = "SCHRITT"
      · have hnum : s.number ≠ n := by
          intro hc
          exact pn (by simp [hs, hc])
        have hnotseen : ¬ s.number ∈ seen := by
          intro hc
          have := hseen s.number hc hnum
          rw [hcons s.number] at this
          simp [hs] at this
        have hrec := ih (s.number :: seen) n b hskip (List.mem_cons_of_mem _ hn)
          (by
            intro m hm hmn
            rcases List.mem_cons.1 hm with hm' | hm'
            · rw [hm']
              have := hcount s.number hnum
              rw [hcons s.number] at this
              simp only [hs, true_and, and_self, if_true] at this
              omega
            · have := hseen m hm' hmn
              rw [hcons m] at this
              omega)
          (by
            intro m hmn
            have := hcount m hmn
            rw [hcons m] at this
            omega)
        have hcontains : seen.contains s.number = false := by
          rw [seenContains_eq]
          simpa using hnotseen
        simp [duplicateStepErrorsAux, hs, hcontains, hrec, hnotseen]
      · have hrec := ih seen n b hskip hn
          (by
            intro m hm hmn
            have := hseen m hm hmn
            rw [hcons m] at this
            omega)
          (by
            intro m hmn
            have := hcount m hmn
            rw [hcons m] at this
            omega)
        simp [duplicateStepErrorsAux, hs, hrec]

/-- Helper: an input whose schritt number `n` is declared exactly twice (and
all others at most once) yields exactly the one duplicate error located at
the second declaration. -/
theorem duplicateStepErrors_pair (steps : List VStep) :
    ∀ (seen : List Nat) (n : Nat) (a b : VStep),
      steps.filter (fun s => s.type == "SCHRITT" && s.number == n) = [a, b] →
      ¬ n ∈ seen →
      (∀ m ∈ seen, schrittNumberCount steps m = 0) →
      (∀ m, m ≠ n → schrittNumberCount steps m ≤ 1) →
      duplicateStepErrorsAux seen steps = [duplicateStepIssue n b.lineNumber] := by
  induction steps with
  | nil => intro seen n a b hfilter _ _ _; simp at hfilter
  | cons s rest ih =>
    intro seen n a b hfilter hn hseen hcount
    have hcons := fun m => schrittNumberCount_cons s rest m
    by_cases pn : (s.type == "SCHRITT" && s.number == n) = true
    · obtain ⟨hs, hnum⟩ : s.type = "SCHRITT" ∧ s.number = n := by simpa using pn
      rw [List.filter_cons, if_pos pn] at hfilter
      have hrestf : rest.filter (fun s => s.type == "SCHRITT" && s.number == n) = [b] :=
        (List.cons_eq_cons.1 hfilter).2
      have hrec : duplicateStepErrorsAux (s.number :: seen) rest =
          [duplicateStepIssue n b.lineNumber] := by
        refine duplicateStepErrorsAux_pending rest (s.number :: seen) n b hrestf
          (by rw [hnum]; exact List.mem_cons_self _ _) ?_ ?_
        · intro m hm hmn
          rcases List.mem_cons.1 hm with hm' | hm'
          · exact absurd (hm' ▸ hnum) hmn
          · have := hseen m hm'
            rw [hcons m] at this
            omega
        · intro m hmn
          have := hcount m hmn
          rw [hcons m] at this
          omega
      have hcontains : seen.contains s.number = false := by
        rw [seenContains_eq, hnum]
        simpa using hn
      have hnotseen : ¬ s.number ∈ seen := by
        rw [hnum]; exact hn
      simp [duplicateStepErrorsAux, hs, hcontains, hrec, hnotseen]
    · have hskip : rest.filter (fun s => s.type == "SCHRITT" && s.number == n) = [a, b] := by
        rw [List.filter_cons, if_neg pn] at hfilter
        exact hfilter
      by_cases hs : s.type = "SCHRITT"
      · have hnum : s.number ≠ n := by
          intro hc
          exact pn (by simp [hs, hc])
        have hnotseen : ¬ s.number ∈ seen := by
          intro hc
          have := hseen s.number hc
          rw [hcons s.number] at this
          simp [hs] at this
        have hrec := ih (s.number :: seen) n a b hskip (by
            intro hc
            rcases List.mem_cons.1 hc with hc' | hc'
            · exact hnum hc'.symm
            · exact hn hc')
          (by
            intro m hm
            rcases List.mem_cons.1 hm with hm' | hm'
            · rw [hm']
              have := hcount s.number hnum
              rw [hcons s.number] at this
              simp only [hs, true_and, and_self, if_true] at this
              omega
            · have := hseen m hm'
              rw [hcons m] at this
              omega)
          (by
            intro m hmn
            have := hcount m hmn
            rw [hcons m] at this
            omega)
        have hcontains : seen.contains s.number = false := by
          rw [seenContains_eq]
          simpa using hnotseen
        simp [duplicateStepErrorsAux, hs, hcontains, hrec, hnotseen]
      · have hrec := ih seen n a b hskip hn
          (by
            intro m hm
            have := hseen m hm
            rw [hcons m] at this
            omega)
          (by
            intro m hmn
            have := hcount m hmn
            rw [hcons m] at this
            omega)
        simp [duplicateStepErrorsAux, hs, hrec]

/-- Helper: every error of the duplicate scan carries the duplicate type. -/
theorem mem_duplicateStepErrorsAux_type (steps : List VStep) :
    ∀ (seen : List Nat) (e : ValidationIssue),
      e ∈ duplicateStepErrorsAux seen steps → e.type = "DUPLICATE_STEP" := by
  induction steps with
  | nil => intro seen e he; simp [duplicateStepErrorsAux] at he
  | cons s rest ih =>
    intro seen e he
    by_cases hs : s.type = "SCHRITT"
    · by_cases hc : seen.contains s.number = true
      · simp only [duplicateStepErrorsAux, if_pos hs, hc, if_true] at he
        rcases List.mem_cons.1 he with he' | he'
        · rw [he']
        · exact ih _ e he'
      · have hc' : seen.contains s.number = false := by
          revert hc; cases seen.contains s.number <;> simp
        simp only [duplicateStepErrorsAux, if_pos hs, hc', if_false] at he
        exact ih _ e he
    · simp only [duplicateStepErrorsAux, if_neg hs] at he
      exact ih _ e he

/-- Helper: every error of the transition check carries the transition
type. -/
theorem mem_invalidVonSchrittErrors_type (steps : List VStep)
    (e : ValidationIssue) (he : e ∈ invalidVonSchrittErrors steps) :
    e.type = "INVALID_VON_SCHRITT" := by
  simp only [invalidVonSchrittErrors, List.mem_flatMap, List.mem_filterMap] at he
  obtain ⟨step, _, transition, _, ht⟩ := he
  by_cases hexists : steps.any (fun s => s.number = transition.fromStep) = true
  · simp [hexists] at ht
  · have : steps.any (fun s => decide (s.number = transition.fromStep)) = false := by
      simpa using hexists
    simp only [this, if_neg] at ht
    rw [← Option.some.inj ht]

/-- C6: the validator checks uniqueness of sequential step numbers: with all
numbers distinct no `DUPLICATE_STEP` error is produced, and with exactly one
number declared twice the full (never aborted) scan produces exactly one
`DUPLICATE_STEP` error, carrying the line of the second declaration. -/
theorem duplicateStepDetection :
    (∀ steps : List VStep, (∀ m, schrittNumberCount steps m ≤ 1) →
      (validateStepLogicConsistency steps).1.filter
        (fun e => e.type == "DUPLICATE_STEP") = []) ∧
    (∀ (steps : List VStep) (n : Nat) (a b : VStep),
      steps.filter (fun s => s.type == "SCHRITT" && s.number == n) = [a, b] →
      (∀ m, m ≠ n → schrittNumberCount steps m ≤ 1) →
      (validateStepLogicConsistency steps).1.filter
        (fun e => e.type == "DUPLICATE_STEP") =
      [duplicateStepIssue n b.lineNumber]) := by
  have hvon : ∀ steps : List VStep,
      (invalidVonSchrittErrors steps).filter
        (fun e => e.type == "DUPLICATE_STEP") = [] := by
    intro steps
    refine List.filter_eq_nil_iff.2 ?_
    intro e he
    rw [mem_invalidVonSchrittErrors_type steps e he]
    decide
  have hdup : ∀ steps : List VStep,
      (duplicateStepErrors steps).filter
        (fun e => e.type == "DUPLICATE_STEP") = duplicateStepErrors steps := by
    intro steps
    refine List.filter_eq_self.2 ?_
    intro e he
    rw [mem_duplicateStepErrorsAux_type steps [] e he]
    rfl
  constructor
  · intro steps hcount
    have h0 : duplicateStepErrors steps = [] :=
      duplicateStepErrorsAux_nil steps [] (by intro m hm; simp at hm) hcount
    simp only [validateStepLogicConsistency, List.filter_append, hvon,
      hdup, List.append_nil]
    exact h0
  · intro steps n a b hfilter hcount
    have h1 : duplicateStepErrors steps = [duplicateStepIssue n b.lineNumber] :=
      duplicateStepErrors_pair steps [] n a b hfilter (by simp)
        (by intro m hm; simp at hm) hcount
    simp only [validateStepLogicConsistency, List.filter_append, hvon,
      hdup, List.append_nil]
    exact h1

/-- Witness for the duplicate-step theorem on a concrete three-step program
whose number 2 is declared twice (lines 7 and 9). -/
theorem duplicateStepDetection_witness :
    (validateStepLogicConsistency
        [⟨"SCHRITT", 1, 5, []⟩, ⟨"SCHRITT", 2, 7, []⟩,
          ⟨"SCHRITT", 2, 9, []⟩]).1.filter
      (fun e => e.type == "DUPLICATE_STEP") = [duplicateStepIssue 2 9] := by
  have h := duplicateStepDetection.2
    [⟨"SCHRITT", 1, 5, []⟩, ⟨"SCHRITT", 2, 7, []⟩, ⟨"SCHRITT", 2, 9, []⟩]
    2 ⟨"SCHRITT", 2, 7, []⟩ ⟨"SCHRITT", 2, 9, []⟩ (by decide)
    (by
      intro m hm
      have h2 : ((2 : Nat) == m) = false := by
        simp only [beq_eq_false_iff_ne, ne_eq]
        exact fun h => hm h.symm
      by_cases h1 : ((1 : Nat) == m) = true <;>
        simp [schrittNumberCount, List.countP_cons, h1, h2])
  exact h

/-- Helper: the sequential five-replacement escape processes one leading
character exactly as the single-pass five-character escape does. -/
theorem escapeXml_data_cons (c : Char) (l : List Char) :
    (escapeXml ⟨c :: l⟩).data = specEscapeChar c ++ (escapeXml ⟨l⟩).data := by
  by_cases h1 : c = '&'
  · subst h1; simp [escapeXml, replaceAllChar, specEscapeChar, aposEntity]
  · by_cases h2 : c = '<'
    · subst h2; simp [escapeXml, replaceAllChar, specEscapeChar, aposEntity]
    · by_cases h3 : c = '>'
      · subst h3; simp [escapeXml, replaceAllChar, specEscapeChar, aposEntity]
      · by_cases h4 : c = '"'
        · subst h4; simp [escapeXml, replaceAllChar, specEscapeChar, aposEntity]
        · by_cases h5 : c = '\''
          · subst h5
            simp [escapeXml, replaceAllChar, specEscapeChar, aposEntity]
          · simp [escapeXml, replaceAllChar, specEscapeChar, aposEntity,
              h1, h2, h3, h4, h5]

/-- Helper: the source's five sequential replacements equal the spec's
single five-character pass. -/
theorem escapeXml_eq_specEscape (s : String) : escapeXml s = specEscape s := by
  cases s with
  | mk l =>
    induction l with
    | nil => rfl
    | cons c rest ih =>
      have hc := escapeXml_data_cons c rest
      have hgoal : (escapeXml ⟨c :: rest⟩).data = (specEscape ⟨c :: rest⟩).data := by
        rw [hc, ih]
        simp [specEscape]
      cases hmk : escapeXml ⟨c :: rest⟩ with
      | mk l1 =>
        cases hmk2 : specEscape ⟨c :: rest⟩ with
        | mk l2 =>
          rw [hmk, hmk2] at hgoal
          exact congrArg String.mk hgoal

/-- C7: the serializer escapes exactly the five characters ampersand,
less-than, greater-than, double quote and apostrophe in every attribute
value and every text leaf (the sequential-replacement implementation agrees
with the exactly-five characterwise escape on every string and the rendered
output agrees with the spec-side serializer on every tree), and raw
fragments render verbatim with no escaping. -/
theorem xmlEscapingExact :
    (∀ s, escapeXml s = specEscape s) ∧
    (∀ (pretty : Bool) (level : Nat) (e : XmlElement),
      XmlElement.toString pretty level e = serializeSpec pretty level e) ∧
    (∀ (esc : String → String) (pretty : Bool) (level : Nat) (s : String),
      renderChildEntry esc pretty level (.raw s) = s) := by
  have hesc : escapeXml = specEscape := funext escapeXml_eq_specEscape
  refine ⟨escapeXml_eq_specEscape, ?_, ?_⟩
  · intro pretty level e
    rw [XmlElement.toString, serializeSpec, hesc]
  · intro esc pretty level s
    rfl

/-- Helper: a valid flag string contains no colon. -/
theorem validFlags_colonFree (flags : String) (h : validFlags flags = true) :
    ∀ c ∈ flags.data, c ≠ ':' := by
  intro c hc hcolon
  have hall := (Bool.and_eq_true _ _ ▸ h).1
  rw [List.all_eq_true] at hall
  have := hall c hc
  rw [hcolon] at this
  simp [regExpFlagChars] at this

/-- Helper: the cache key decomposes uniquely for colon-free flag strings. -/
theorem cacheKey_inj (p1 f1 p2 f2 : String)
    (h1 : validFlags f1 = true) (h2 : validFlags f2 = true)
    (h : cacheKey p1 f1 = cacheKey p2 f2) : p1 = p2 ∧ f1 = f2 := by
  have hf1 := validFlags_colonFree f1 h1
  have hf2 := validFlags_colonFree f2 h2
  have hdata : p1.data ++ (':' :: ':' :: ':' :: f1.data) =
      p2.data ++ (':' :: ':' :: ':' :: f2.data) := by
    have := congrArg String.data h
    simpa [cacheKey, String.data_append] using this
  have hrev := congrArg List.reverse hdata
  simp only [List.reverse_append, List.reverse_cons, List.append_assoc] at hrev
  have hp1 : ∀ c ∈ f1.data.reverse, (fun c => decide (c ≠ ':')) c = true := by
    intro c hc; simpa using hf1 c (List.mem_reverse.1 hc)
  have hp2 : ∀ c ∈ f2.data.reverse, (fun c => decide (c ≠ ':')) c = true := by
    intro c hc; simpa using hf2 c (List.mem_reverse.1 hc)
  have htake := congrArg (List.takeWhile fun c => decide (c ≠ ':')) hrev
  rw [List.takeWhile_append_of_pos hp1, List.takeWhile_append_of_pos hp2] at htake
  simp at htake
  have hfeq : f1.data = f2.data := by
    have := congrArg List.reverse htake
    simpa using this
  have hfs : f1 = f2 := String.ext hfeq
  refine ⟨?_, hfs⟩
  apply String.ext
  rw [hfeq] at hdata
  exact List.append_cancel_right hdata

/-- Helper: a successful lookup locates a stored entry. -/
theorem lookup_mem {β : Type} (k : String) (r : β) :
    ∀ l : List (String × β), l.lookup k = some r → (k, r) ∈ l := by
  intro l
  induction l with
  | nil => intro h; simp [List.lookup] at h
  | cons kv rest ih =>
    intro h
    rw [List.lookup] at h
    by_cases hk : (k == kv.1) = true
    · rw [hk] at h
      have hkey : k = kv.1 := beq_iff_eq.1 hk
      have hval : kv.2 = r := Option.some.inj h
      have hpair : (k, r) = kv := by
        rw [hkey, ← hval]
      exact hpair ▸ List.mem_cons_self kv rest
    · have hkf : (k == kv.1) = false := by
        revert hk; cases k == kv.1 <;> simp
      rw [hkf] at h
      exact List.mem_cons_of_mem _ (ih h)

/-- Counterexample to C9 as stated: the cache is neither semantically
transparent nor bounded. Two cached uses of the valid global regex `/a/g`
on input `"a"` give `true` then `false` — the shared cached object's
`lastIndex` persisted between the calls — while a fresh compilation gives
`true` each time; and with capacity `maxSize = 0` a single `getRegex` call
still leaves one entry in the cache. -/
theorem regexCacheSemantics_counterexample :
    (((RegexCache.mk [] 10 0 0).useOnce "a" "g" "a").bind
        (fun st => (st.2.useOnce "a" "g" "a").map fun st2 => (st.1, st2.1)) =
      some (true, false)) ∧
    freshTest "a" "g" "a" = some true ∧
    ((RegexCache.mk [] 0 0 0).getRegex "ab" "").map
        (fun result => result.2.cache.length) = some 1 ∧
      (RegexCache.mk [] 0 0 0).maxSize = 0 := by
  refine ⟨by decide, by decide, by decide, rfl⟩

/-- C9 (amended): for calls whose flag strings are valid JS flag strings (so
cache keys cannot collide) and a positive capacity, `getRegex` returns a
matcher compiled from exactly the requested pattern and flags; its observed
`test` behavior agrees with a freshly compiled matcher whenever the flags
hold neither `g` nor `y` (only those flags make matching consult the shared
object's mutable `lastIndex`); and the cache stays well-formed and within
its capacity. -/
theorem regexCacheTransparencyBounded (rc : RegexCache) (pattern flags : String)
    (hwf : CacheWellFormed rc.cache) (hsize : rc.cache.length ≤ rc.maxSize)
    (hmax : 1 ≤ rc.maxSize) (hflags : validFlags flags = true) :
    ∃ r rc1, rc.getRegex pattern flags = some (r, rc1) ∧
      r.pattern = pattern ∧ r.flags = flags ∧
      (∀ input, isLiteralPattern pattern = true →
        flags.data.contains 'g' = false → flags.data.contains 'y' = false →
        (jsTestLit r input).1 = (jsTestLit ⟨pattern, flags, 0⟩ input).1) ∧
      newRegExp pattern flags = some ⟨pattern, flags, 0⟩ ∧
      CacheWellFormed rc1.cache ∧ rc1.cache.length ≤ rc.maxSize ∧
      rc1.maxSize = rc.maxSize := by
  have hfresh : newRegExp pattern flags = some ⟨pattern, flags, 0⟩ := by
    simp [newRegExp, hflags]
  have hbeh : ∀ r : RegExpObj, r.pattern = pattern → r.flags = flags →
      ∀ input : String,
      flags.data.contains 'g' = false → flags.data.contains 'y' = false →
      (jsTestLit r input).1 = (jsTestLit ⟨pattern, flags, 0⟩ input).1 := by
    intro r hp hf input hg hy
    have hg1 : ¬ ('g' ∈ flags.data) := by simpa using hg
    have hy1 : ¬ ('y' ∈ flags.data) := by simpa using hy
    simp [jsTestLit, hp, hf, hg1, hy1]
  rcases hlook : rc.cache.lookup (cacheKey pattern flags) with _ | r
  · refine ⟨⟨pattern, flags, 0⟩, { rc with
        cache := (if rc.cache.length ≥ rc.maxSize then rc.cache.tail
            else rc.cache) ++
          [(cacheKey pattern flags, ⟨pattern, flags, 0⟩)],
        missCount := rc.missCount + 1 }, ?_, rfl, rfl,
      fun input _ => hbeh _ rfl rfl input, hfresh, ?_, ?_, rfl⟩
    · simp only [RegexCache.getRegex, hlook, hfresh]
    · intro kv hkv
      simp only at hkv
      rcases List.mem_append.1 hkv with hkv1 | hkv1
      · split at hkv1
        · exact hwf kv (List.mem_of_mem_tail hkv1)
        · exact hwf kv hkv1
      · rw [List.mem_singleton.1 hkv1]
        exact ⟨hflags, rfl⟩
    · simp only [List.length_append]
      split
      · simp only [List.length_tail, List.length_singleton]
        omega
      · simp only [List.length_singleton]
        omega
  · have hmem : (cacheKey pattern flags, r) ∈ rc.cache :=
      lookup_mem (cacheKey pattern flags) r rc.cache hlook
    obtain ⟨hrflags, hrkey⟩ := hwf _ hmem
    obtain ⟨hp, hf⟩ :=
      cacheKey_inj r.pattern r.flags pattern flags hrflags hflags hrkey.symm
    refine ⟨r, { rc with
        cache := (rc.cache.eraseP
            (fun kv => kv.1 == cacheKey pattern flags)) ++
          [(cacheKey pattern flags, r)],
        hitCount := rc.hitCount + 1 }, ?_, hp, hf,
      fun input _ => hbeh r hp hf input, hfresh, ?_, ?_, rfl⟩
    · simp only [RegexCache.getRegex, hlook]
    · intro kv hkv
      simp only at hkv
      rcases List.mem_append.1 hkv with hkv1 | hkv1
      · exact hwf kv (List.eraseP_subset _ hkv1)
      · rw [List.mem_singleton.1 hkv1]
        exact ⟨hrflags, hrkey⟩
    · have herase : (rc.cache.eraseP
          (fun kv => kv.1 == cacheKey pattern flags)).length =
          rc.cache.length - 1 :=
        List.length_eraseP_of_mem hmem (by simp)
      simp only [List.length_append, herase, List.length_singleton]
      omega

/-- Witness for the amended cache theorem at a concrete empty cache of
capacity five and the stateless flag string `i`. -/
theorem regexCacheTransparencyBounded_witness :
    ∃ r rc1, (RegexCache.mk [] 5 0 0).getRegex "ab" "i" = some (r, rc1) ∧
      r.pattern = "ab" ∧ r.flags = "i" ∧
      (∀ input, isLiteralPattern "ab" = true →
        ("i" : String).data.contains 'g' = false →
        ("i" : String).data.contains 'y' = false →
        (jsTestLit r input).1 = (jsTestLit ⟨"ab", "i", 0⟩ input).1) ∧
      newRegExp "ab" "i" = some ⟨"ab", "i", 0⟩ ∧
      CacheWellFormed rc1.cache ∧ rc1.cache.length ≤ 5 ∧ rc1.maxSize = 5 :=
  regexCacheTransparencyBounded (RegexCache.mk [] 5 0 0) "ab" "i"
    (by intro kv hkv; simp at hkv) (by decide) (by decide) (by decide)

/-- C3: generation fails exactly on a missing or empty steps list — the
guard returns the no-steps comment in precisely those cases, and for every
program with at least one step the generator returns the serialized XML text
(starting with the XML declaration) without aborting. -/
theorem generationFailsOnlyWhenNoSteps :
    (∀ pr : Option GenParseResult,
      generateTIAPortalXML pr = noStepsComment ↔
        (pr = none ∨ ∃ p, pr = some p ∧ (p.steps = none ∨ p.steps = some []))) ∧
    (∀ (p : GenParseResult) (step : PStep) (rest : List PStep),
      p.steps = some (step :: rest) →
      (generateTIAPortalXML (some p)).data.take 5 = "<?xml".data) := by
  have hprefix : ∀ (p : GenParseResult) (step : PStep) (rest : List PStep),
      p.steps = some (step :: rest) →
      (generateTIAPortalXML (some p)).data.take 5 = "<?xml".data := by
    intro p step rest hsteps
    simp only [generateTIAPortalXML, hsteps, documentToXml, String.data_append]
    rfl
  refine ⟨?_, hprefix⟩
  intro pr
  constructor
  · intro h
    match pr with
    | none => exact Or.inl rfl
    | some p =>
      refine Or.inr ⟨p, rfl, ?_⟩
      match hsteps : p.steps with
      | none => exact Or.inl rfl
      | some [] => exact Or.inr rfl
      | some (step :: rest) =>
        exfalso
        have h5 := hprefix p step rest hsteps
        rw [h] at h5
        exact absurd h5 (by decide)
  · intro h
    rcases h with h | ⟨p, hp, hsteps⟩
    · rw [h]; rfl
    · rcases hsteps with h2 | h2 <;>
        simp [hp, generateTIAPortalXML, h2]

/-- Witness for the generation theorem: a one-step program serializes to XML
text, and the empty program yields the failure comment. -/
theorem generationFailsOnlyWhenNoSteps_witness :
    (generateTIAPortalXML (some ⟨none, some [⟨0, .RUST, "idle"⟩]⟩)).data.take 5 =
        "<?xml".data ∧
      generateTIAPortalXML (some ⟨none, some []⟩) = noStepsComment :=
  ⟨generationFailsOnlyWhenNoSteps.2 ⟨none, some [⟨0, .RUST, "idle"⟩]⟩
      ⟨0, .RUST, "idle"⟩ [] rfl,
    (generationFailsOnlyWhenNoSteps.1 (some ⟨none, some []⟩)).2
      (Or.inr ⟨⟨none, some []⟩, rfl, Or.inr rfl⟩)⟩

/-- Helper: `Negated` children carry no `TemplateValue`. -/
theorem templateValueOfChildren_negated (ports : List String) :
    templateValueOfChildren (ports.map fun portName =>
      XmlChildEntry.elem (XmlElement.mk "Negated" [("Name", portName)] [])) =
      none := by
  induction ports with
  | nil => rfl
  | cons p rest ih => simpa [templateValueOfChildren] using ih

/-- Helper: the serialized cardinality of a part is its assigned cardinality
exactly when that is positive. -/
theorem gatePart_serializedCardinality (g : GatePart) (c : Nat)
    (hc : g.cardinality = some c) :
    templateValueOf g.toXmlTree =
      (if 0 < c then some (toString c) else none) := by
  by_cases hpos : 0 < c
  · simp [GatePart.toXmlTree, templateValueOf, hc, hpos, templateValueOfChildren]
  · simp [GatePart.toXmlTree, templateValueOf, hc, hpos,
      templateValueOfChildren_negated g.negatedInputs]

/-- C2: in every network of a generated document, after the two-pass
resolution every A gate's `cardinality` equals the number of wires whose
target endpoint is the gate's identifier, and the serialized `TemplateValue`
(emitted exactly when that count is positive) always carries that count. -/
theorem andGateCardinality (functionBlock : Option String) (steps : List PStep)
    (net : Network) (g : GatePart)
    (hnet : net ∈ (buildDocument functionBlock steps).networks)
    (hg : NetPart.gate g ∈ (resolveCardinalities net).parts)
    (hkind : g.kind = .A) :
    g.cardinality = some (countWiresTo net.wires g.id) ∧
    (∀ v, templateValueOf g.toXmlTree = some v →
      v = toString (countWiresTo net.wires g.id)) ∧
    templateValueOf g.toXmlTree =
      (if 0 < countWiresTo net.wires g.id
        then some (toString (countWiresTo net.wires g.id)) else none) := by
  simp only [resolveCardinalities, List.mem_map] at hg
  obtain ⟨p, hp, hfp⟩ := hg
  have hcard : g.cardinality = some (countWiresTo net.wires g.id) := by
    match p with
    | .access a => simp at hfp
    | .gate g0 =>
      by_cases hk0 : g0.kind = .A
      · simp only [hk0, if_pos rfl] at hfp
        have hgeq := NetPart.gate.inj hfp
        rw [← hgeq]
      · simp only [if_neg hk0] at hfp
        have hgeq := NetPart.gate.inj hfp
        rw [← hgeq] at hkind
        exact absurd hkind hk0
  have hser := gatePart_serializedCardinality g _ hcard
  refine ⟨hcard, ?_, hser⟩
  intro v hv
  rw [hser] at hv
  by_cases hpos : 0 < countWiresTo net.wires g.id
  · rw [if_pos hpos] at hv
    exact (Option.some.inj hv).symm
  · rw [if_neg hpos] at hv
    exact absurd hv (by simp)

/-- Witness for the cardinality theorem: the RUST network's A gate of a
one-step program has one incoming wire and serializes cardinality 1. -/
theorem andGateCardinality_witness :
    (GatePart.mk 503 PartKind.A (some 1) ["in1"]).cardinality = some 1 ∧
    templateValueOf (GatePart.mk 503 PartKind.A (some 1) ["in1"]).toXmlTree =
      some "1" := by
  have h := andGateCardinality none (sampleProgram 1)
    ((buildDocument none (sampleProgram 1)).networks.headD (Network.new 0 "" 0).1)
    ⟨503, .A, some 1, ["in1"]⟩ (by decide) (by decide) rfl
  have hcount : countWiresTo
      ((buildDocument none (sampleProgram 1)).networks.headD
        (Network.new 0 "" 0).1).wires 503 = 1 := by decide
  refine ⟨?_, ?_⟩
  · rw [h.1, hcount]
  · rw [h.2.2, hcount]
    rfl

/-- Helper: ports `in1`..`in30` are declared inputs of the A gate. -/
theorem partKindInputs_A_mem (i : Nat) (h : i < 30) :
    ("in" ++ toString (i + 1)) ∈ partKindInputs .A := by
  revert i
  decide

/-- Helper: unfolding one more rest port. -/
theorem restPorts_succ (n : Nat) :
    restPorts (n + 1) = restPorts n ++ ["in" ++ toString (n + 1)] := by
  simp [restPorts, List.range_succ]

/-- Helper: port `in(idx+1)` is not among the first `idx` rest ports. -/
theorem restPorts_self_not_mem (idx : Nat) (h : idx < 30) :
    ¬ ("in" ++ toString (idx + 1)) ∈ restPorts idx := by
  revert idx
  decide

/-- Helper: the step-access loop appends one access per sequential step,
with consecutive ids, leaving everything else unchanged. -/
theorem addStepAccesses_spec (l : List PStep) : ∀ net : Network,
    (addStepAccesses net l).1.parts = net.parts ++
      (l.zip (List.range' net.uidState l.length)).map
        (fun si => .access ⟨si.2, "Stap", some si.1.number, false, false⟩) ∧
    (addStepAccesses net l).2 = List.range' net.uidState l.length ∧
    (addStepAccesses net l).1.wires = net.wires ∧
    (addStepAccesses net l).1.uidState = net.uidState + l.length ∧
    (addStepAccesses net l).1.id = net.id ∧
    (addStepAccesses net l).1.title = net.title ∧
    (addStepAccesses net l).1.comment = net.comment := by
  induction l with
  | nil => intro net; simp [addStepAccesses]
  | cons st rest ih =>
    intro net
    have h := ih { net with
      parts := net.parts ++ [.access ⟨net.uidState, "Stap", some st.number, false, false⟩],
      uidState := net.uidState + 1 }
    simp only [addStepAccesses, Network.addAccess] at *
    refine ⟨?_, ?_, ?_, ?_, ?_, ?_, ?_⟩ <;>
      simp [h.1, h.2.1, h.2.2.1, h.2.2.2.1, h.2.2.2.2.1, h.2.2.2.2.2.1,
        h.2.2.2.2.2.2, List.range'_succ, Nat.add_assoc, Nat.add_comm 1 rest.length]



/-- Helper: `connect` appends exactly one wire with the next own id. -/
theorem connect_wires (net : Network) (fromId : Nat) (fromPort : Option String)
    (toId : Nat) (toPort : String) (negated : Bool) :
    (net.connect fromId fromPort toId toPort negated).wires =
      net.wires ++ [⟨net.uidState, fromId, fromPort, toId, toPort⟩] := by
  rw [Network.connect]
  split <;> rfl

/-- Helper: `connect` advances the own manager by one. -/
theorem connect_uidState (net : Network) (fromId : Nat) (fromPort : Option String)
    (toId : Nat) (toPort : String) (negated : Bool) :
    (net.connect fromId fromPort toId toPort negated).uidState =
      net.uidState + 1 := by
  rw [Network.connect]
  split <;> rfl

/-- Helper: `connect` keeps the network id. -/
theorem connect_id (net : Network) (fromId : Nat) (fromPort : Option String)
    (toId : Nat) (toPort : String) (negated : Bool) :
    (net.connect fromId fromPort toId toPort negated).id = net.id := by
  rw [Network.connect]
  split <;> rfl

/-- Helper: `connect` keeps the title. -/
theorem connect_title (net : Network) (fromId : Nat) (fromPort : Option String)
    (toId : Nat) (toPort : String) (negated : Bool) :
    (net.connect fromId fromPort toId toPort negated).title = net.title := by
  rw [Network.connect]
  split <;> rfl

/-- Helper: `connect` keeps the comment. -/
theorem connect_comment (net : Network) (fromId : Nat) (fromPort : Option String)
    (toId : Nat) (toPort : String) (negated : Bool) :
    (net.connect fromId fromPort toId toPort negated).comment = net.comment := by
  rw [Network.connect]
  split <;> rfl

/-- Helper: a non-negated `connect` leaves the parts untouched. -/
theorem connect_parts_false (net : Network) (fromId : Nat)
    (fromPort : Option String) (toId : Nat) (toPort : String) :
    (net.connect fromId fromPort toId toPort false).parts = net.parts := rfl

/-- Helper: a negated `connect` maps the negation over the parts. -/
theorem connect_parts_true (net : Network) (fromId : Nat)
    (fromPort : Option String) (toId : Nat) (toPort : String) :
    (net.connect fromId fromPort toId toPort true).parts =
      net.parts.map fun p =>
        match p with
        | .gate g => if g.id = toId then .gate (g.negateInput toPort)
            else .gate g
        | other => other := rfl

/-- Helper: wiring the rest inputs negates one further gate port per
sequential step access (all ports being declared while at most thirty
inputs are wired), leaving the access parts untouched. -/
theorem connectRestInputs_spec : ∀ (ids : List Nat) (idx : Nat) (net : Network)
    (X : List NetPart) (g : GatePart),
    net.parts = X ++ [.gate g] →
    (∀ p ∈ X, ∃ a, p = .access a) →
    g.kind = .A →
    g.negatedInputs = restPorts idx →
    idx + ids.length ≤ 30 →
    (connectRestInputs net g.id idx ids).parts =
      X ++ [.gate ⟨g.id, .A, g.cardinality, restPorts (idx + ids.length)⟩] ∧
    (∃ added, (connectRestInputs net g.id idx ids).wires = net.wires ++ added) ∧
    (connectRestInputs net g.id idx ids).uidState = net.uidState + ids.length ∧
    (connectRestInputs net g.id idx ids).id = net.id ∧
    (connectRestInputs net g.id idx ids).title = net.title ∧
    (connectRestInputs net g.id idx ids).comment = net.comment := by
  intro ids
  induction ids with
  | nil =>
    intro idx net X g hparts hX hkind hneg hbound
    have hgeq : g = ⟨g.id, .A, g.cardinality, restPorts idx⟩ := by
      cases g
      simp only at hkind hneg ⊢
      rw [hkind, hneg]
    refine ⟨?_, ⟨[], by simp [connectRestInputs]⟩, by simp [connectRestInputs],
      rfl, rfl, rfl⟩
    simp only [connectRestInputs, List.length_nil, Nat.add_zero, hparts, ← hgeq]
  | cons aId rest ih =>
    intro idx net X g hparts hX hkind hneg hbound
    have hlt : idx < 30 := by
      simp only [List.length_cons] at hbound
      omega
    have hg1 : (GatePart.negateInput g ("in" ++ toString (idx + 1))) =
        ⟨g.id, g.kind, g.cardinality, restPorts (idx + 1)⟩ := by
      rw [GatePart.negateInput]
      rw [if_pos (by rw [hkind]
                     exact List.elem_eq_true_of_mem (partKindInputs_A_mem idx hlt))]
      rw [if_neg (by rw [hneg]; simpa using restPorts_self_not_mem idx hlt)]
      rw [restPorts_succ, ← hneg]
    have hXmap : ∀ f : NetPart → NetPart, (∀ a : AccessPart, f (.access a) = .access a) →
        List.map f X = X := by
      intro f hf
      have : List.map f X = List.map id X := by
        refine List.map_congr_left ?_
        intro p hp
        obtain ⟨a, ha⟩ := hX p hp
        rw [ha, hf a, id]
      rw [this, List.map_id]
    have hmapped : (net.connect aId none g.id ("in" ++ toString (idx + 1)) true).parts =
        X ++ [.gate ⟨g.id, g.kind, g.cardinality, restPorts (idx + 1)⟩] := by
      rw [connect_parts_true, hparts, List.map_append]
      congr 1
      · exact hXmap _ (fun a => rfl)
      · simp [hg1]
    have hrec := ih (idx + 1)
      (net.connect aId none g.id ("in" ++ toString (idx + 1)) true) X
      ⟨g.id, g.kind, g.cardinality, restPorts (idx + 1)⟩
      hmapped hX hkind rfl (by simp only [List.length_cons] at hbound; omega)
    simp only at hrec
    simp only [connectRestInputs]
    have harith : idx + 1 + rest.length = idx + (rest.length + 1) := by omega
    refine ⟨?_, ?_, ?_, ?_, ?_, ?_⟩
    · rw [hrec.1]
      simp only [List.length_cons]
      rw [harith]
    · obtain ⟨added, hadded⟩ := hrec.2.1
      refine ⟨⟨net.uidState, aId, none, g.id, "in" ++ toString (idx + 1)⟩ :: added, ?_⟩
      rw [hadded, connect_wires]
      simp [List.append_assoc]
    · rw [hrec.2.2.1, connect_uidState]
      simp only [List.length_cons]
      omega
    · rw [hrec.2.2.2.1, connect_id]
    · rw [hrec.2.2.2.2.1, connect_title]
    · rw [hrec.2.2.2.2.2, connect_comment]






/-- Helper: `addPart` appends one gate part with the next own id. -/
theorem addPart_spec (net : Network) (k : PartKind) :
    (net.addPart k).1.parts = net.parts ++ [.gate ⟨net.uidState, k, none, []⟩] ∧
    (net.addPart k).2 = ⟨net.uidState, k, none, []⟩ ∧
    (net.addPart k).1.wires = net.wires ∧
    (net.addPart k).1.uidState = net.uidState + 1 ∧
    (net.addPart k).1.id = net.id ∧
    (net.addPart k).1.title = net.title ∧
    (net.addPart k).1.comment = net.comment :=
  ⟨rfl, rfl, rfl, rfl, rfl, rfl, rfl⟩

/-- Helper: `addAccess` appends one access part with the next own id. -/
theorem addAccess_spec (net : Network) (v : String) (i : Nat) :
    (net.addAccess v i).1.parts =
      net.parts ++ [.access ⟨net.uidState, v, some i, false, false⟩] ∧
    (net.addAccess v i).2 = ⟨net.uidState, v, some i, false, false⟩ ∧
    (net.addAccess v i).1.wires = net.wires ∧
    (net.addAccess v i).1.uidState = net.uidState + 1 ∧
    (net.addAccess v i).1.id = net.id ∧
    (net.addAccess v i).1.title = net.title ∧
    (net.addAccess v i).1.comment = net.comment :=
  ⟨rfl, rfl, rfl, rfl, rfl, rfl, rfl⟩

/-- Helper: the RUST network of a program with 1..30 sequential steps is a
Rest network for that step count: its A gate carries one negated input per
sequential step and feeds the Sr latch's set input. -/
theorem buildRustNetwork_isRest (parentUid : Nat) (steps : List PStep)
    (rustStep : PStep)
    (hpos : 1 ≤ (steps.filter fun s => s.type = .STAP).length)
    (hM : (steps.filter fun s => s.type = .STAP).length ≤ 30) :
    IsRestNetwork ((steps.filter fun s => s.type = .STAP).length)
      (buildRustNetwork parentUid steps rustStep).1 ∧
    (buildRustNetwork parentUid steps rustStep).2 = parentUid + 1 ∧
    (buildRustNetwork parentUid steps rustStep).1.id = parentUid := by
  obtain ⟨fs, hfind⟩ : ∃ fs, steps.find? (fun s => s.type = .STAP) = some fs := by
    have hne : (steps.filter fun s => s.type = .STAP) ≠ [] := by
      intro hc
      rw [hc] at hpos
      simp at hpos
    obtain ⟨x, hx⟩ := List.exists_mem_of_ne_nil _ hne
    have hxs := List.mem_filter.1 hx
    have : (steps.find? fun s => s.type = .STAP).isSome := by
      rw [List.find?_isSome]
      exact ⟨x, hxs.1, hxs.2⟩
    exact Option.isSome_iff_exists.1 this
  simp only [buildRustNetwork, hfind]
  set L := steps.filter fun s => decide (s.type = .STAP) with hL
  set t := if rustStep.description = "" then "RUST Logic" else rustStep.description with ht
  set N0 := Network.new parentUid t 500 with hN0
  set SA := addStepAccesses N0.1 L with hSA
  set GP := SA.1.addPart PartKind.A with hGP
  set CR := connectRestInputs GP.1 GP.2.id 0 SA.2 with hCR
  set SRP := CR.addPart PartKind.Sr with hSRP
  set AA := SRP.1.addAccess "Stap" fs.number with hAA
  set C1 := AA.1.connect AA.2.id none SRP.2.id "r1" false with hC1
  set C2 := C1.connect GP.2.id (some "out") SRP.2.id "s" false with hC2
  set AO := C2.addAccess "Stap" 0 with hAO
  set X := (L.zip (List.range' N0.1.uidState L.length)).map
    (fun si => NetPart.access ⟨si.2, "Stap", some si.1.number, false, false⟩) with hX
  have hSAspec := addStepAccesses_spec L N0.1
  have hSAparts : SA.1.parts = X := by
    rw [hSA, hSAspec.1]
    rw [show N0.1.parts = [] from rfl]
    rw [List.nil_append, hX]
  have hSAids : SA.2 = List.range' N0.1.uidState L.length := by
    rw [hSA, hSAspec.2.1]
  have hSAlen : SA.2.length = L.length := by
    rw [hSAids, List.length_range']
  have hXaccess : ∀ p ∈ X, ∃ a, p = NetPart.access a := by
    intro p hp
    rw [hX] at hp
    simp only [List.mem_map] at hp
    obtain ⟨si, _, hpe⟩ := hp
    exact ⟨_, hpe.symm⟩
  have hGPparts : GP.1.parts = X ++ [.gate ⟨SA.1.uidState, .A, none, []⟩] := by
    rw [hGP, (addPart_spec SA.1 .A).1, hSAparts]
  have hGP2 : GP.2 = ⟨SA.1.uidState, .A, none, []⟩ := by
    rw [hGP, (addPart_spec SA.1 .A).2.1]
  have hCRspec := connectRestInputs_spec SA.2 0 GP.1 X
    ⟨SA.1.uidState, .A, none, []⟩ hGPparts hXaccess rfl rfl
    (by rw [hSAlen]; omega)
  rw [hGP2] at hCR
  simp only at hCR
  have hCRparts : CR.parts =
      X ++ [.gate ⟨SA.1.uidState, .A, none, restPorts L.length⟩] := by
    rw [hCR]
    have := hCRspec.1
    simp only at this
    rw [this, Nat.zero_add, hSAlen]
  have hSRparts : SRP.1.parts = CR.parts ++ [.gate ⟨CR.uidState, .Sr, none, []⟩] :=
    (addPart_spec CR .Sr).1
  have hSR2 : SRP.2 = ⟨CR.uidState, .Sr, none, []⟩ := (addPart_spec CR .Sr).2.1
  have hAAparts : AA.1.parts = SRP.1.parts ++
      [.access ⟨SRP.1.uidState, "Stap", some fs.number, false, false⟩] :=
    (addAccess_spec SRP.1 "Stap" fs.number).1
  have hC1parts : C1.parts = AA.1.parts := connect_parts_false _ _ _ _ _
  have hC2parts : C2.parts = C1.parts := connect_parts_false _ _ _ _ _
  have hAOparts : AO.1.parts = C2.parts ++
      [.access ⟨C2.uidState, "Stap", some 0, false, false⟩] :=
    (addAccess_spec C2 "Stap" 0).1
  have hFparts : (AO.1.connect AO.2.id none SRP.2.id "operand" false).parts =
      AO.1.parts := connect_parts_false _ _ _ _ _
  have hC2wires : C2.wires = C1.wires ++
      [⟨C1.uidState, GP.2.id, some "out", SRP.2.id, "s"⟩] :=
    connect_wires _ _ _ _ _ _
  have hAOwires : AO.1.wires = C2.wires := (addAccess_spec C2 "Stap" 0).2.2.1
  have hFwires : (AO.1.connect AO.2.id none SRP.2.id "operand" false).wires =
      AO.1.wires ++ [⟨AO.1.uidState, AO.2.id, none, SRP.2.id, "operand"⟩] :=
    connect_wires _ _ _ _ _ _
  refine ⟨?_, by rw [hN0]; rfl, ?_⟩
  · refine ⟨⟨SA.1.uidState, .A, none, restPorts L.length⟩,
      ⟨CR.uidState, .Sr, none, []⟩, ?_, rfl, rfl, ?_, rfl,
      ⟨C1.uidState, GP.2.id, some "out", SRP.2.id, "s"⟩, ?_, ?_, rfl, ?_, rfl⟩
    · rw [hFparts, hAOparts, hC2parts, hC1parts, hAAparts, hSRparts, hCRparts]
      simp
    · rw [hFparts, hAOparts, hC2parts, hC1parts, hAAparts, hSRparts]
      simp
    · rw [hFwires, hAOwires, hC2wires]
      simp
    · rw [hGP2]
    · rw [hSR2]
  · rw [connect_id, hAO, (addAccess_spec C2 "Stap" 0).2.2.2.2.1, hC2,
      connect_id, hC1, connect_id, hAA,
      (addAccess_spec SRP.1 "Stap" fs.number).2.2.2.2.1, hSRP,
      (addPart_spec CR .Sr).2.2.2.2.1, hCR]
    rw [hCRspec.2.2.2.1]
    rw [hGP, (addPart_spec SA.1 .A).2.2.2.2.1, hSA, hSAspec.2.2.2.2.1]
    rfl



/-- Helper: exact parts and wires of a non-final sequential-step network. -/
theorem buildStepNetwork_some_shape (pu base prev : Nat) (st : PStep) (nx : Nat) :
    (buildStepNetwork pu base prev st (some nx)).1.parts =
      [.access ⟨base + 2, "Stap", some prev, false, false⟩,
        .access ⟨base + 3, "Stap", some st.number, false, false⟩,
        .access ⟨base + 4, "", none, true, false⟩,
        .gate ⟨base + 5, .A, none, ["in2"]⟩,
        .gate ⟨base + 9, .Sr, none, []⟩,
        .access ⟨base + 10, "Stap", some nx, false, false⟩,
        .access ⟨base + 11, "Stap", some st.number, false, false⟩] ∧
    (buildStepNetwork pu base prev st (some nx)).1.wires =
      [⟨base + 6, base + 2, none, base + 5, "in1"⟩,
        ⟨base + 7, base + 3, none, base + 5, "in2"⟩,
        ⟨base + 8, base + 4, none, base + 5, "in3"⟩,
        ⟨base + 12, base + 5, some "out", base + 9, "s"⟩,
        ⟨base + 13, base + 10, none, base + 9, "r1"⟩,
        ⟨base + 14, base + 11, none, base + 9, "operand"⟩] ∧
    (buildStepNetwork pu base prev st (some nx)).1.uidState = base + 15 ∧
    (buildStepNetwork pu base prev st (some nx)).2 = pu + 1 ∧
    (buildStepNetwork pu base prev st (some nx)).1.id = pu ∧
    (buildStepNetwork pu base prev st (some nx)).1.title.id = base ∧
    (buildStepNetwork pu base prev st (some nx)).1.comment.id = base + 1 := by
  refine ⟨?_, ?_, ?_, ?_, ?_, ?_, ?_⟩ <;>
    simp [buildStepNetwork, Network.new, MultilingualText.new, Network.addAccess,
      Network.addLiteralBool, Network.addPart, Network.connect,
      GatePart.negateInput, Nat.add_assoc] <;>
    decide

/-- Helper: exact parts and wires of the final sequential-step network. -/
theorem buildStepNetwork_none_shape (pu base prev : Nat) (st : PStep) :
    (buildStepNetwork pu base prev st none).1.parts =
      [.access ⟨base + 2, "Stap", some prev, false, false⟩,
        .access ⟨base + 3, "Stap", some st.number, false, false⟩,
        .access ⟨base + 4, "", none, true, false⟩,
        .gate ⟨base + 5, .A, none, ["in2"]⟩,
        .gate ⟨base + 9, .Coil, none, []⟩,
        .access ⟨base + 10, "Stap", some st.number, false, false⟩] ∧
    (buildStepNetwork pu base prev st none).1.wires =
      [⟨base + 6, base + 2, none, base + 5, "in1"⟩,
        ⟨base + 7, base + 3, none, base + 5, "in2"⟩,
        ⟨base + 8, base + 4, none, base + 5, "in3"⟩,
        ⟨base + 11, base + 5, some "out", base + 9, "in"⟩,
        ⟨base + 12, base + 10, none, base + 9, "operand"⟩] ∧
    (buildStepNetwork pu base prev st none).1.uidState = base + 13 ∧
    (buildStepNetwork pu base prev st none).2 = pu + 1 ∧
    (buildStepNetwork pu base prev st none).1.id = pu ∧
    (buildStepNetwork pu base prev st none).1.title.id = base ∧
    (buildStepNetwork pu base prev st none).1.comment.id = base + 1 := by
  refine ⟨?_, ?_, ?_, ?_, ?_, ?_, ?_⟩ <;>
    simp [buildStepNetwork, Network.new, MultilingualText.new, Network.addAccess,
      Network.addLiteralBool, Network.addPart, Network.connect,
      GatePart.negateInput, Nat.add_assoc] <;>
    decide

/-- Helper: every non-final step network drives a set/reset latch. -/
theorem buildStepNetwork_some_isLatch (pu base prev : Nat) (st : PStep) (nx : Nat) :
    IsLatchNetwork (buildStepNetwork pu base prev st (some nx)).1 := by
  have h := buildStepNetwork_some_shape pu base prev st nx
  refine ⟨⟨base + 5, .A, none, ["in2"]⟩, ⟨base + 9, .Sr, none, []⟩,
    ?_, rfl, ?_, rfl, ⟨base + 12, base + 5, some "out", base + 9, "s"⟩,
    ?_, rfl, rfl, rfl, rfl⟩
  · rw [h.1]; simp
  · rw [h.1]; simp
  · rw [h.2.1]; simp

/-- Helper: the final step network drives a coil, holds no latch, and wires
no reset port. -/
theorem buildStepNetwork_none_isTerminal (pu base prev : Nat) (st : PStep) :
    IsTerminalCoilNetwork (buildStepNetwork pu base prev st none).1 := by
  have h := buildStepNetwork_none_shape pu base prev st
  refine ⟨⟨⟨base + 5, .A, none, ["in2"]⟩, ⟨base + 9, .Coil, none, []⟩,
    ?_, rfl, ?_, rfl, ⟨base + 11, base + 5, some "out", base + 9, "in"⟩,
    ?_, rfl, rfl, rfl, rfl⟩, ?_, ?_⟩
  · rw [h.1]; simp
  · rw [h.1]; simp
  · rw [h.2.1]; simp
  · intro g hg
    rw [h.1] at hg
    simp only [List.mem_cons, List.not_mem_nil, or_false] at hg
    rcases hg with hg | hg | hg | hg | hg | hg <;> simp_all
  · intro w hw
    rw [h.2.1] at hw
    simp only [List.mem_cons, List.not_mem_nil, or_false] at hw
    rcases hw with hw | hw | hw | hw | hw <;> simp_all



/-- Helper: the step-network sequence has one network per sequential step
(ids consecutive), all but the last driving a latch and the last driving a
coil with no reset wiring. -/
theorem buildStepNetworks_spec : ∀ (l : List PStep) (pu idx prev : Nat),
    (buildStepNetworks pu idx prev l).1.length = l.length ∧
    (buildStepNetworks pu idx prev l).2 = pu + l.length ∧
    (buildStepNetworks pu idx prev l).1.map Network.id = List.range' pu l.length ∧
    (∀ net ∈ (buildStepNetworks pu idx prev l).1.dropLast, IsLatchNetwork net) ∧
    (∀ lnet, (buildStepNetworks pu idx prev l).1.getLast? = some lnet →
      IsTerminalCoilNetwork lnet) := by
  intro l
  induction l with
  | nil =>
    intro pu idx prev
    refine ⟨rfl, by simp [buildStepNetworks], by simp [buildStepNetworks], ?_, ?_⟩
    · intro net hnet
      simp [buildStepNetworks] at hnet
    · intro lnet hl
      simp [buildStepNetworks] at hl
  | cons st rest ih =>
    intro pu idx prev
    cases rest with
    | nil =>
      have hsh := buildStepNetwork_none_shape pu (1000 + idx * 100) prev st
      refine ⟨rfl, ?_, ?_, ?_, ?_⟩
      · simp only [buildStepNetworks, hsh.2.2.2.1, List.length_cons,
          List.length_nil]
      · simp only [buildStepNetworks, List.map_cons, List.map_nil,
          hsh.2.2.2.2.1, List.length_cons, List.length_nil, Nat.zero_add,
          List.range'_one]
      · intro net hnet
        simp [buildStepNetworks] at hnet
      · intro lnet hl
        simp only [buildStepNetworks, List.getLast?_singleton,
          Option.some.injEq] at hl
        rw [← hl]
        exact buildStepNetwork_none_isTerminal pu (1000 + idx * 100) prev st
    | cons st2 rest2 =>
      have hsh := buildStepNetwork_some_shape pu (1000 + idx * 100) prev st st2.number
      have hpu2 : (buildStepNetwork pu (1000 + idx * 100) prev st
          (some st2.number)).2 = pu + 1 := hsh.2.2.2.1
      have hihspec := ih (pu + 1) (idx + 1) st.number
      have hnonempty :
          (buildStepNetworks (pu + 1) (idx + 1) st.number (st2 :: rest2)).1 ≠ [] := by
        intro hc
        have := hihspec.1
        rw [hc] at this
        simp at this
      refine ⟨?_, ?_, ?_, ?_, ?_⟩
      · simp only [buildStepNetworks, hpu2, List.length_cons, hihspec.1]
      · simp only [buildStepNetworks, hpu2, hihspec.2.1, List.length_cons]
        omega
      · simp only [buildStepNetworks, hpu2, List.map_cons, hihspec.2.2.1,
          hsh.2.2.2.2.1, List.length_cons]
        rw [List.range'_succ, List.range'_succ]
        simp only [List.cons.injEq, true_and]
        rw [List.range'_succ]
      · intro net hnet
        simp only [buildStepNetworks, hpu2] at hnet
        rw [List.dropLast_cons_of_ne_nil hnonempty] at hnet
        rcases List.mem_cons.1 hnet with hnet | hnet
        · rw [hnet]
          exact buildStepNetwork_some_isLatch pu (1000 + idx * 100) prev st st2.number
        · exact hihspec.2.2.2.1 net hnet
      · intro lnet hl
        simp only [buildStepNetworks, hpu2] at hl
        rcases hLl : (buildStepNetworks (pu + 1) (idx + 1) st.number
            (st2 :: rest2)).1 with _ | ⟨y, ys⟩
        · exact absurd hLl hnonempty
        · rw [hLl, List.getLast?_cons_cons] at hl
          refine hihspec.2.2.2.2 lnet ?_
          rw [hLl]
          exact hl



/-- C1 (amended: at most 30 sequential steps): a Program with one Rest step
and `n` sequential steps (1 <= n <= 30) generates exactly `n+1` networks:
first the Rest network, whose A gate has one negated input per sequential
step bit and drives a set/reset latch, then `n-1` latch-driving step
networks, and finally a terminal network driving a coil with no reset
wiring. -/
theorem restStepNetworkShapes (functionBlock : Option String)
    (steps : List PStep) (n : Nat)
    (hrust : steps.countP (fun s => s.type = .RUST) = 1)
    (hn : (steps.filter fun s => s.type = .STAP).length = n)
    (h1 : 1 ≤ n) (h30 : n ≤ 30) :
    ∃ restNet stepNets,
      (buildDocument functionBlock steps).networks = restNet :: stepNets ∧
      (buildDocument functionBlock steps).networks.length = n + 1 ∧
      IsRestNetwork n restNet ∧
      stepNets.length = n ∧
      (∀ net ∈ stepNets.dropLast, IsLatchNetwork net) ∧
      (∀ lnet, stepNets.getLast? = some lnet → IsTerminalCoilNetwork lnet) := by
  obtain ⟨rs, hfindR⟩ : ∃ rs, steps.find? (fun s => s.type = .RUST) = some rs := by
    have hpos : 0 < steps.countP (fun s => decide (s.type = .RUST)) := by
      rw [hrust]
      omega
    rw [List.countP_pos] at hpos
    obtain ⟨x, hx, hpx⟩ := hpos
    have : (steps.find? fun s => s.type = .RUST).isSome := by
      rw [List.find?_isSome]
      exact ⟨x, hx, hpx⟩
    exact Option.isSome_iff_exists.1 this
  have hrestSpec := buildRustNetwork_isRest 3 steps rs (hn ▸ h1) (hn ▸ h30)
  have hstepSpec := buildStepNetworks_spec
    (steps.filter fun s => s.type = .STAP) (buildRustNetwork 3 steps rs).2 0 0
  refine ⟨(buildRustNetwork 3 steps rs).1,
    (buildStepNetworks (buildRustNetwork 3 steps rs).2 0 0
      (steps.filter fun s => s.type = .STAP)).1, ?_, ?_, hn ▸ hrestSpec.1, ?_,
    hstepSpec.2.2.2.1, hstepSpec.2.2.2.2⟩
  · simp [buildDocument, hfindR, MultilingualText.new]
  · simp [buildDocument, hfindR, MultilingualText.new, List.length_append,
      hstepSpec.1, hn]
  · rw [hstepSpec.1, hn]



/-- Witness for the network-shape theorem at one RUST plus two STAP steps. -/
theorem restStepNetworkShapes_witness :
    ∃ restNet stepNets,
      (buildDocument none (sampleProgram 2)).networks = restNet :: stepNets ∧
      (buildDocument none (sampleProgram 2)).networks.length = 2 + 1 ∧
      IsRestNetwork 2 restNet ∧ stepNets.length = 2 ∧
      (∀ net ∈ stepNets.dropLast, IsLatchNetwork net) ∧
      (∀ lnet, stepNets.getLast? = some lnet → IsTerminalCoilNetwork lnet) :=
  restStepNetworkShapes none (sampleProgram 2) 2 (by decide) (by decide)
    (by decide) (by decide)

/-- Counterexample to C1 as stated: with 31 sequential steps the Rest
network's A gate carries only 30 negated inputs (the gate declares ports
`in1`..`in30` only, so the 31st negation request is dropped). -/
theorem restNetworkShapes_counterexample :
    (sampleProgram 31).countP (fun s => s.type = .RUST) = 1 ∧
    ((sampleProgram 31).filter fun s => s.type = .STAP).length = 31 ∧
    ((buildDocument none (sampleProgram 31)).networks.head?.map fun net =>
        net.parts.filterMap fun p =>
          match p with
          | NetPart.gate g =>
            if g.kind = .A then some g.negatedInputs.length else none
          | _ => none) = some [30] :=
  ⟨by decide, by decide, by decide⟩

/-- Helper: negating an input keeps the part id. -/
theorem negateInput_id (g : GatePart) (p : String) :
    (g.negateInput p).id = g.id := by
  rw [GatePart.negateInput]
  split
  · split <;> rfl
  · rfl

/-- Helper: `connect` keeps the list of part ids. -/
theorem connect_partIds (net : Network) (fromId : Nat) (fromPort : Option String)
    (toId : Nat) (toPort : String) (negated : Bool) :
    ((net.connect fromId fromPort toId toPort negated).parts).map NetPart.partId =
      net.parts.map NetPart.partId := by
  cases negated with
  | false => rw [connect_parts_false]
  | true =>
    rw [connect_parts_true, List.map_map]
    refine List.map_congr_left ?_
    intro p _
    cases p with
    | gate g =>
      simp only [Function.comp_apply]
      split
      · simp [NetPart.partId, negateInput_id]
      · rfl
    | access a => rfl

/-- Helper: a list extended in the middle by one fresh element stays
duplicate-free within widened bounds. -/
theorem netInv_extend (base u : Nat) (l1 l2 : List Nat)
    (hnd : (l1 ++ l2).Nodup) (hb : ∀ x ∈ l1 ++ l2, base ≤ x ∧ x < u)
    (hbu : base ≤ u) :
    (l1 ++ u :: l2).Nodup ∧ ∀ x ∈ l1 ++ u :: l2, base ≤ x ∧ x < u + 1 := by
  constructor
  · rw [List.nodup_middle]
    refine List.nodup_cons.2 ⟨?_, hnd⟩
    intro hmem
    have := hb u hmem
    omega
  · intro x hx
    rw [List.mem_append, List.mem_cons] at hx
    rcases hx with hx | hx | hx
    · have := hb x (List.mem_append.2 (Or.inl hx)); omega
    · omega
    · have := hb x (List.mem_append.2 (Or.inr hx)); omega

/-- Helper: the fresh constructor state satisfies the allocation
invariant. -/
theorem netInv_new (parentUid base : Nat) (t : String) :
    NetUidInv base (Network.new parentUid t base).1 ∧
    (Network.new parentUid t base).1.uidState = base + 2 ∧
    (Network.new parentUid t base).1.id = parentUid ∧
    (Network.new parentUid t base).2 = parentUid + 1 := by
  have hcore : netCoreUids (Network.new parentUid t base).1 = [base, base + 1] :=
    rfl
  refine ⟨⟨?_, ?_, ?_⟩, rfl, rfl, rfl⟩
  · show base ≤ base + 2
    omega
  · rw [hcore]
    simp
  · intro x hx
    rw [hcore] at hx
    show base ≤ x ∧ x < base + 2
    simp only [List.mem_cons, List.not_mem_nil, or_false] at hx
    omega

/-- Helper: `connect` preserves the allocation invariant. -/
theorem netInv_connect (base : Nat) (net : Network) (fromId : Nat)
    (fromPort : Option String) (toId : Nat) (toPort : String) (negated : Bool)
    (h : NetUidInv base net) :
    NetUidInv base (net.connect fromId fromPort toId toPort negated) := by
  obtain ⟨h1, h2, h3⟩ := h
  have hcore : netCoreUids (net.connect fromId fromPort toId toPort negated) =
      netCoreUids net ++ [net.uidState] := by
    simp [netCoreUids, connect_title, connect_comment, connect_partIds,
      connect_wires, List.append_assoc]
  have hext := netInv_extend base net.uidState (netCoreUids net) []
    (by simpa using h2) (by simpa using h3) h1
  refine ⟨?_, ?_, ?_⟩
  · rw [connect_uidState]; omega
  · rw [hcore]; exact hext.1
  · intro x hx
    rw [hcore] at hx
    rw [connect_uidState]
    exact hext.2 x hx

/-- Helper: `addPart` preserves the allocation invariant. -/
theorem netInv_addPart (base : Nat) (net : Network) (k : PartKind)
    (h : NetUidInv base net) :
    NetUidInv base (net.addPart k).1 := by
  obtain ⟨h1, h2, h3⟩ := h
  have hcore : netCoreUids (net.addPart k).1 =
      (net.title.id :: net.comment.id :: net.parts.map NetPart.partId) ++
        net.uidState :: net.wires.map WireT.id := by
    simp [netCoreUids, Network.addPart, NetPart.partId, List.append_assoc]
  have hold : (net.title.id :: net.comment.id :: net.parts.map NetPart.partId) ++
      net.wires.map WireT.id = netCoreUids net := by
    simp [netCoreUids]
  have hext := netInv_extend base net.uidState
    (net.title.id :: net.comment.id :: net.parts.map NetPart.partId)
    (net.wires.map WireT.id) (by rw [hold]; exact h2)
    (by rw [hold]; exact h3) h1
  refine ⟨?_, ?_, ?_⟩
  · rw [(addPart_spec net k).2.2.2.1]; omega
  · rw [hcore]; exact hext.1
  · intro x hx
    rw [hcore] at hx
    rw [(addPart_spec net k).2.2.2.1]
    exact hext.2 x hx

/-- Helper: `addAccess` preserves the allocation invariant. -/
theorem netInv_addAccess (base : Nat) (net : Network) (v : String) (i : Nat)
    (h : NetUidInv base net) :
    NetUidInv base (net.addAccess v i).1 := by
  obtain ⟨h1, h2, h3⟩ := h
  have hcore : netCoreUids (net.addAccess v i).1 =
      (net.title.id :: net.comment.id :: net.parts.map NetPart.partId) ++
        net.uidState :: net.wires.map WireT.id := by
    simp [netCoreUids, Network.addAccess, NetPart.partId, List.append_assoc]
  have hold : (net.title.id :: net.comment.id :: net.parts.map NetPart.partId) ++
      net.wires.map WireT.id = netCoreUids net := by
    simp [netCoreUids]
  have hext := netInv_extend base net.uidState
    (net.title.id :: net.comment.id :: net.parts.map NetPart.partId)
    (net.wires.map WireT.id) (by rw [hold]; exact h2)
    (by rw [hold]; exact h3) h1
  refine ⟨?_, ?_, ?_⟩
  · rw [(addAccess_spec net v i).2.2.2.1]; omega
  · rw [hcore]; exact hext.1
  · intro x hx
    rw [hcore] at hx
    rw [(addAccess_spec net v i).2.2.2.1]
    exact hext.2 x hx

/-- Helper: the step-access loop preserves the allocation invariant. -/
theorem netInv_addStepAccesses (base : Nat) : ∀ (l : List PStep) (net : Network),
    NetUidInv base net → NetUidInv base (addStepAccesses net l).1 := by
  intro l
  induction l with
  | nil => intro net h; exact h
  | cons st rest ih =>
    intro net h
    simp only [addStepAccesses]
    exact ih _ (netInv_addAccess base net "Stap" st.number h)

/-- Helper: the rest-input loop preserves the allocation invariant. -/
theorem netInv_connectRestInputs (base : Nat) : ∀ (ids : List Nat) (idx : Nat)
    (net : Network) (gid : Nat), NetUidInv base net →
    NetUidInv base (connectRestInputs net gid idx ids) := by
  intro ids
  induction ids with
  | nil => intro idx net gid h; exact h
  | cons a rest ih =>
    intro idx net gid h
    simp only [connectRestInputs]
    exact ih _ _ _ (netInv_connect base net a none gid _ true h)

/-- Helper: the rest-input loop advances the manager by one per access and
keeps the network id. -/
theorem connectRestInputs_basic : ∀ (ids : List Nat) (idx : Nat)
    (net : Network) (gid : Nat),
    (connectRestInputs net gid idx ids).uidState = net.uidState + ids.length ∧
    (connectRestInputs net gid idx ids).id = net.id := by
  intro ids
  induction ids with
  | nil => intro idx net gid; exact ⟨rfl, rfl⟩
  | cons a rest ih =>
    intro idx net gid
    simp only [connectRestInputs]
    have := ih (idx + 1) (net.connect a none gid ("in" ++ toString (idx + 1)) true) gid
    rw [this.1, this.2, connect_uidState, connect_id, List.length_cons]
    omega

/-- Helper: the RUST network satisfies the allocation invariant over its
reserved base 500 and its manager stays within 509 plus twice the
sequential-step count. -/
theorem buildRustNetwork_uidInv (parentUid : Nat) (steps : List PStep)
    (rustStep : PStep) :
    NetUidInv 500 (buildRustNetwork parentUid steps rustStep).1 ∧
    (buildRustNetwork parentUid steps rustStep).1.uidState ≤
      509 + 2 * (steps.filter fun s => s.type = .STAP).length ∧
    (buildRustNetwork parentUid steps rustStep).1.id = parentUid ∧
    (buildRustNetwork parentUid steps rustStep).2 = parentUid + 1 := by
  simp only [buildRustNetwork]
  set L := steps.filter fun s => decide (s.type = .STAP) with hL
  set t := if rustStep.description = "" then "RUST Logic" else rustStep.description
    with ht
  set N0 := Network.new parentUid t 500 with hN0
  set SA := addStepAccesses N0.1 L with hSA
  set GP := SA.1.addPart PartKind.A with hGP
  set CR := connectRestInputs GP.1 GP.2.id 0 SA.2 with hCR
  set SRP := CR.addPart PartKind.Sr with hSRP
  have hnew := netInv_new parentUid 500 t
  have hSAspec := addStepAccesses_spec L N0.1
  have hSAlen : SA.2.length = L.length := by
    rw [hSA, hSAspec.2.1, List.length_range']
  have hinvSA : NetUidInv 500 SA.1 := netInv_addStepAccesses 500 L N0.1 hnew.1
  have hinvGP : NetUidInv 500 GP.1 := netInv_addPart 500 SA.1 .A hinvSA
  have hinvCR : NetUidInv 500 CR := netInv_connectRestInputs 500 SA.2 0 GP.1
    GP.2.id hinvGP
  have hinvSRP : NetUidInv 500 SRP.1 := netInv_addPart 500 CR .Sr hinvCR
  have hCRbasic := connectRestInputs_basic SA.2 0 GP.1 GP.2.id
  have hSAuid : SA.1.uidState = 502 + L.length := by
    rw [hSA, hSAspec.2.2.2.1, hnew.2.1]
  have hSAid : SA.1.id = parentUid := by
    rw [hSA, hSAspec.2.2.2.2.1, hnew.2.2.1]
  have hGPuid : GP.1.uidState = 503 + L.length := by
    rw [hGP, (addPart_spec SA.1 .A).2.2.2.1, hSAuid]
    omega
  have hGPid : GP.1.id = parentUid := by
    rw [hGP, (addPart_spec SA.1 .A).2.2.2.2.1, hSAid]
  have hCRuid : CR.uidState = 503 + 2 * L.length := by
    rw [hCR, hCRbasic.1, hGPuid, hSAlen]
    omega
  have hCRid : CR.id = parentUid := by
    rw [hCR, hCRbasic.2, hGPid]
  have hSRPuid : SRP.1.uidState = 504 + 2 * L.length := by
    rw [hSRP, (addPart_spec CR .Sr).2.2.2.1, hCRuid]
    omega
  have hSRPid : SRP.1.id = parentUid := by
    rw [hSRP, (addPart_spec CR .Sr).2.2.2.2.1, hCRid]
  cases hfind : steps.find? (fun s => s.type = .STAP) with
  | none =>
    simp only
    set C2 := SRP.1.connect GP.2.id (some "out") SRP.2.id "s" false with hC2
    set AO := C2.addAccess "Stap" 0 with hAO
    have hinvC2 : NetUidInv 500 C2 := netInv_connect 500 SRP.1 _ _ _ _ _ hinvSRP
    have hinvAO : NetUidInv 500 AO.1 := netInv_addAccess 500 C2 "Stap" 0 hinvC2
    have hinvF : NetUidInv 500 (AO.1.connect AO.2.id none SRP.2.id "operand" false) :=
      netInv_connect 500 AO.1 _ _ _ _ _ hinvAO
    have hFuid : (AO.1.connect AO.2.id none SRP.2.id "operand" false).uidState =
        507 + 2 * L.length := by
      rw [connect_uidState, hAO, (addAccess_spec C2 "Stap" 0).2.2.2.1, hC2,
        connect_uidState, hSRPuid]
      omega
    have hFid : (AO.1.connect AO.2.id none SRP.2.id "operand" false).id =
        parentUid := by
      rw [connect_id, hAO, (addAccess_spec C2 "Stap" 0).2.2.2.2.1, hC2,
        connect_id, hSRPid]
    refine ⟨hinvF, ?_, hFid, by rw [hN0]; rfl⟩
    rw [hFuid]
    omega
  | some fs =>
    simp only
    set AA := SRP.1.addAccess "Stap" fs.number with hAA
    set C1 := AA.1.connect AA.2.id none SRP.2.id "r1" false with hC1
    set C2 := C1.connect GP.2.id (some "out") SRP.2.id "s" false with hC2
    set AO := C2.addAccess "Stap" 0 with hAO
    have hinvAA : NetUidInv 500 AA.1 :=
      netInv_addAccess 500 SRP.1 "Stap" fs.number hinvSRP
    have hinvC1 : NetUidInv 500 C1 := netInv_connect 500 AA.1 _ _ _ _ _ hinvAA
    have hinvC2 : NetUidInv 500 C2 := netInv_connect 500 C1 _ _ _ _ _ hinvC1
    have hinvAO : NetUidInv 500 AO.1 := netInv_addAccess 500 C2 "Stap" 0 hinvC2
    have hinvF : NetUidInv 500 (AO.1.connect AO.2.id none SRP.2.id "operand" false) :=
      netInv_connect 500 AO.1 _ _ _ _ _ hinvAO
    have hFuid : (AO.1.connect AO.2.id none SRP.2.id "operand" false).uidState =
        509 + 2 * L.length := by
      rw [connect_uidState, hAO, (addAccess_spec C2 "Stap" 0).2.2.2.1, hC2,
        connect_uidState, hC1, connect_uidState, hAA,
        (addAccess_spec SRP.1 "Stap" fs.number).2.2.2.1, hSRPuid]
      omega
    have hFid : (AO.1.connect AO.2.id none SRP.2.id "operand" false).id =
        parentUid := by
      rw [connect_id, hAO, (addAccess_spec C2 "Stap" 0).2.2.2.2.1, hC2,
        connect_id, hC1, connect_id, hAA,
        (addAccess_spec SRP.1 "Stap" fs.number).2.2.2.2.1, hSRPid]
    refine ⟨hinvF, ?_, hFid, by rw [hN0]; rfl⟩
    rw [hFuid]

/-- Helper: a non-final step network satisfies the allocation invariant over
its reserved base. -/
theorem buildStepNetwork_some_uidInv (pu base prev : Nat) (st : PStep) (nx : Nat) :
    NetUidInv base (buildStepNetwork pu base prev st (some nx)).1 := by
  have hsh := buildStepNetwork_some_shape pu base prev st nx
  have hcore : netCoreUids (buildStepNetwork pu base prev st (some nx)).1 =
      [base, base + 1, base + 2, base + 3, base + 4, base + 5, base + 9,
        base + 10, base + 11, base + 6, base + 7, base + 8, base + 12,
        base + 13, base + 14] := by
    simp [netCoreUids, hsh.1, hsh.2.1, hsh.2.2.2.2.2.1, hsh.2.2.2.2.2.2,
      NetPart.partId]
  refine ⟨?_, ?_, ?_⟩
  · rw [hsh.2.2.1]; omega
  · rw [hcore]; simp
  · intro x hx
    rw [hcore] at hx
    rw [hsh.2.2.1]
    simp only [List.mem_cons, List.not_mem_nil, or_false] at hx
    omega

/-- Helper: the final step network satisfies the allocation invariant over
its reserved base. -/
theorem buildStepNetwork_none_uidInv (pu base prev : Nat) (st : PStep) :
    NetUidInv base (buildStepNetwork pu base prev st none).1 := by
  have hsh := buildStepNetwork_none_shape pu base prev st
  have hcore : netCoreUids (buildStepNetwork pu base prev st none).1 =
      [base, base + 1, base + 2, base + 3, base + 4, base + 5, base + 9,
        base + 10, base + 6, base + 7, base + 8, base + 11, base + 12] := by
    simp [netCoreUids, hsh.1, hsh.2.1, hsh.2.2.2.2.2.1, hsh.2.2.2.2.2.2,
      NetPart.partId]
  refine ⟨?_, ?_, ?_⟩
  · rw [hsh.2.2.1]; omega
  · rw [hcore]; simp
  · intro x hx
    rw [hcore] at hx
    rw [hsh.2.2.1]
    simp only [List.mem_cons, List.not_mem_nil, or_false] at hx
    omega

/-- Helper: under the allocation invariant the serialized local ids of a
network (including the four serialization-time text-item ids) are pairwise
distinct and bounded by the manager value plus four. -/
theorem networkLocalUids_of_inv (base : Nat) (net : Network)
    (h : NetUidInv base net) :
    (networkLocalUids net).Nodup ∧
    ∀ x ∈ networkLocalUids net, base ≤ x ∧ x < net.uidState + 4 := by
  obtain ⟨h1, h2, h3⟩ := h
  have hloc : networkLocalUids net = netCoreUids net ++
      [net.uidState, net.uidState + 1, net.uidState + 2, net.uidState + 3] := by
    simp [networkLocalUids, netCoreUids, List.append_assoc]
  constructor
  · rw [hloc]
    refine h2.append (by simp) ?_
    intro x hx hx4
    have := h3 x hx
    simp only [List.mem_cons, List.not_mem_nil, or_false] at hx4
    omega
  · intro x hx
    rw [hloc, List.mem_append] at hx
    rcases hx with hx | hx
    · have := h3 x hx; omega
    · simp only [List.mem_cons, List.not_mem_nil, or_false] at hx
      omega

/-- Helper: the concatenated local ids of the sequential-step networks are
pairwise distinct and lie in the reserved bands starting at the current
index's base. -/
theorem stepNetworksUidsNodup : ∀ (l : List PStep) (pu idx prev : Nat),
    ((buildStepNetworks pu idx prev l).1.flatMap networkLocalUids).Nodup ∧
    ∀ x ∈ (buildStepNetworks pu idx prev l).1.flatMap networkLocalUids,
      1000 + idx * 100 ≤ x ∧ x < 1000 + (idx + l.length) * 100 := by
  intro l
  induction l with
  | nil =>
    intro pu idx prev
    constructor
    · simp [buildStepNetworks]
    · intro x hx
      simp [buildStepNetworks] at hx
  | cons st rest ih =>
    intro pu idx prev
    cases rest with
    | nil =>
      have hinv := buildStepNetwork_none_uidInv pu (1000 + idx * 100) prev st
      have hloc := networkLocalUids_of_inv _ _ hinv
      have huid := (buildStepNetwork_none_shape pu (1000 + idx * 100) prev st).2.2.1
      constructor
      · simp only [buildStepNetworks, List.flatMap_cons, List.flatMap_nil,
          List.append_nil]
        exact hloc.1
      · intro x hx
        simp only [buildStepNetworks, List.flatMap_cons, List.flatMap_nil,
          List.append_nil] at hx
        have hb := hloc.2 x hx
        rw [huid] at hb
        simp only [List.length_cons, List.length_nil]
        omega
    | cons st2 rest2 =>
      have hinv := buildStepNetwork_some_uidInv pu (1000 + idx * 100) prev st
        st2.number
      have hloc := networkLocalUids_of_inv _ _ hinv
      have hsh := buildStepNetwork_some_shape pu (1000 + idx * 100) prev st
        st2.number
      have hih := ih (pu + 1) (idx + 1) st.number
      have hbx : ∀ x ∈ networkLocalUids
          (buildStepNetwork pu (1000 + idx * 100) prev st (some st2.number)).1,
          1000 + idx * 100 ≤ x ∧ x < 1000 + idx * 100 + 19 := by
        intro x hx
        have := hloc.2 x hx
        rw [hsh.2.2.1] at this
        omega
      constructor
      · simp only [buildStepNetworks, hsh.2.2.2.1, List.flatMap_cons]
        refine hloc.1.append hih.1 ?_
        intro x hx hx2
        have h1 := hbx x hx
        have h2 := (hih.2 x hx2).1
        omega
      · intro x hx
        simp only [buildStepNetworks, hsh.2.2.2.1, List.flatMap_cons,
          List.mem_append] at hx
        simp only [List.length_cons]
        rcases hx with hx | hx
        · have := hbx x hx
          constructor
          · omega
          · have : (idx + (rest2.length + 1 + 1)) * 100 =
                idx * 100 + rest2.length * 100 + 200 := by ring
            omega
        · have := hih.2 x hx
          simp only [List.length_cons] at this
          constructor
          · omega
          · have h100 : (idx + 1 + (rest2.length + 1)) * 100 =
                (idx + (rest2.length + 1 + 1)) * 100 := by ring
            omega

/-- C4 (amended: at most 243 sequential steps): every identifier of the
generated document is unique across the document — the document-level
counter ids, the per-network reserved ranges (base 500 for the Rest
network, 1000 + 100*i for the i-th step network) and the serialization-time
text-item ids never collide, provided the Program has at most 243
sequential steps. -/
theorem uidUniquenessBounded (functionBlock : Option String) (steps : List PStep)
    (hM : (steps.filter fun s => s.type = .STAP).length ≤ 243) :
    (documentUids (buildDocument functionBlock steps)).Nodup := by
  cases hfind : steps.find? (fun s => s.type = .RUST) with
  | some rs =>
    have hrust := buildRustNetwork_uidInv 3 steps rs
    have hrloc := networkLocalUids_of_inv 500 _ hrust.1
    have hsteps := buildStepNetworks_spec (steps.filter fun s : PStep => s.type = StepType.STAP)
      (buildRustNetwork 3 steps rs).2 0 0
    have hflat := stepNetworksUidsNodup (steps.filter fun s : PStep => s.type = StepType.STAP)
      (buildRustNetwork 3 steps rs).2 0 0
    have hnets : (buildDocument functionBlock steps).networks =
        (buildRustNetwork 3 steps rs).1 ::
          (buildStepNetworks (buildRustNetwork 3 steps rs).2 0 0
            (steps.filter fun s : PStep => s.type = StepType.STAP)).1 := by
      simp [buildDocument, hfind, MultilingualText.new]
    have hfbId : (buildDocument functionBlock steps).fbId = 0 := by
      simp [buildDocument, hfind, MultilingualText.new]
    have hfbC : (buildDocument functionBlock steps).fbComment.id = 1 := by
      simp [buildDocument, hfind, MultilingualText.new]
    have hfbT : (buildDocument functionBlock steps).fbTitle.id = 2 := by
      simp [buildDocument, hfind, MultilingualText.new]
    have huid5 : (buildDocument functionBlock steps).uidState =
        (buildStepNetworks (buildRustNetwork 3 steps rs).2 0 0
          (steps.filter fun s : PStep => s.type = StepType.STAP)).2 := by
      simp [buildDocument, hfind, MultilingualText.new]
    have hUval : (buildStepNetworks (buildRustNetwork 3 steps rs).2 0 0
        (steps.filter fun s : PStep => s.type = StepType.STAP)).2 =
        4 + (steps.filter fun s : PStep => s.type = StepType.STAP).length := by
      rw [hsteps.2.1, hrust.2.2.2]
    have hmapid : (buildStepNetworks (buildRustNetwork 3 steps rs).2 0 0
        (steps.filter fun s : PStep => s.type = StepType.STAP)).1.map Network.id =
        List.range' 4 (steps.filter fun s : PStep => s.type = StepType.STAP).length := by
      rw [hsteps.2.2.1, hrust.2.2.2]
    simp only [documentUids, hnets, hfbId, hfbC, hfbT, huid5, List.map_cons,
      List.flatMap_cons, hrust.2.2.1, hmapid, hUval]
    have hheadlt : ∀ x ∈ ([0, 1, 2] ++ (3 :: List.range' 4
          (steps.filter fun s : PStep => s.type = StepType.STAP).length) ++
        [4 + (steps.filter fun s : PStep => s.type = StepType.STAP).length,
          4 + (steps.filter fun s : PStep => s.type = StepType.STAP).length + 1,
          4 + (steps.filter fun s : PStep => s.type = StepType.STAP).length + 2,
          4 + (steps.filter fun s : PStep => s.type = StepType.STAP).length + 3]),
        x < (steps.filter fun s : PStep => s.type = StepType.STAP).length + 8 := by
      intro x hx
      rw [List.mem_append, List.mem_append] at hx
      rcases hx with (hx | hx) | hx
      · simp only [List.mem_cons, List.not_mem_nil, or_false] at hx
        omega
      · rcases List.mem_cons.1 hx with hx | hx
        · omega
        · rw [List.mem_range'_1] at hx
          omega
      · simp only [List.mem_cons, List.not_mem_nil, or_false] at hx
        omega
    have hhead : (([0, 1, 2] ++ (3 :: List.range' 4
          (steps.filter fun s : PStep => s.type = StepType.STAP).length) ++
        [4 + (steps.filter fun s : PStep => s.type = StepType.STAP).length,
          4 + (steps.filter fun s : PStep => s.type = StepType.STAP).length + 1,
          4 + (steps.filter fun s : PStep => s.type = StepType.STAP).length + 2,
          4 + (steps.filter fun s : PStep => s.type = StepType.STAP).length + 3])).Nodup := by
      refine List.Nodup.append (List.Nodup.append (by simp) ?_ ?_) (by simp) ?_
      · refine List.nodup_cons.2 ⟨?_, List.nodup_range' 4
          (steps.filter fun s : PStep => s.type = StepType.STAP).length⟩
        intro hmem
        rw [List.mem_range'_1] at hmem
        omega
      · intro x hx hx2
        simp only [List.mem_cons, List.not_mem_nil, or_false] at hx
        rcases List.mem_cons.1 hx2 with hy | hy
        · omega
        · rw [List.mem_range'_1] at hy
          omega
      · intro x hx hx2
        simp only [List.mem_cons, List.not_mem_nil, or_false] at hx2
        rw [List.mem_append] at hx
        rcases hx with hx | hx
        · simp only [List.mem_cons, List.not_mem_nil, or_false] at hx
          omega
        · rcases List.mem_cons.1 hx with hy | hy
          · omega
          · rw [List.mem_range'_1] at hy
            omega
    have htail500 : ∀ x ∈ networkLocalUids (buildRustNetwork 3 steps rs).1 ++
        (buildStepNetworks (buildRustNetwork 3 steps rs).2 0 0
          (steps.filter fun s : PStep => s.type = StepType.STAP)).1.flatMap networkLocalUids,
        500 ≤ x := by
      intro x hx
      rw [List.mem_append] at hx
      rcases hx with hx | hx
      · exact (hrloc.2 x hx).1
      · have := (hflat.2 x hx).1
        omega
    have htail : (networkLocalUids (buildRustNetwork 3 steps rs).1 ++
        (buildStepNetworks (buildRustNetwork 3 steps rs).2 0 0
          (steps.filter fun s : PStep => s.type = StepType.STAP)).1.flatMap
            networkLocalUids).Nodup := by
      refine hrloc.1.append hflat.1 ?_
      intro x hx hx2
      have h1 := (hrloc.2 x hx).2
      have h2 := hrust.2.1
      have h3 := (hflat.2 x hx2).1
      omega
    refine hhead.append htail ?_
    intro x hx hx2
    have h1 := hheadlt x hx
    have h2 := htail500 x hx2
    omega
  | none =>
    have hsteps := buildStepNetworks_spec (steps.filter fun s : PStep => s.type = StepType.STAP)
      3 0 0
    have hflat := stepNetworksUidsNodup (steps.filter fun s : PStep => s.type = StepType.STAP)
      3 0 0
    have hnets : (buildDocument functionBlock steps).networks =
        (buildStepNetworks 3 0 0 (steps.filter fun s : PStep => s.type = StepType.STAP)).1 := by
      simp [buildDocument, hfind, MultilingualText.new]
    have hfbId : (buildDocument functionBlock steps).fbId = 0 := by
      simp [buildDocument, hfind, MultilingualText.new]
    have hfbC : (buildDocument functionBlock steps).fbComment.id = 1 := by
      simp [buildDocument, hfind, MultilingualText.new]
    have hfbT : (buildDocument functionBlock steps).fbTitle.id = 2 := by
      simp [buildDocument, hfind, MultilingualText.new]
    have huid5 : (buildDocument functionBlock steps).uidState =
        (buildStepNetworks 3 0 0 (steps.filter fun s : PStep => s.type = StepType.STAP)).2 := by
      simp [buildDocument, hfind, MultilingualText.new]
    have hUval : (buildStepNetworks 3 0 0
        (steps.filter fun s : PStep => s.type = StepType.STAP)).2 =
        3 + (steps.filter fun s : PStep => s.type = StepType.STAP).length := hsteps.2.1
    have hmapid : (buildStepNetworks 3 0 0
        (steps.filter fun s : PStep => s.type = StepType.STAP)).1.map Network.id =
        List.range' 3 (steps.filter fun s : PStep => s.type = StepType.STAP).length :=
      hsteps.2.2.1
    simp only [documentUids, hnets, hfbId, hfbC, hfbT, huid5, hmapid, hUval]
    have hheadlt : ∀ x ∈ ([0, 1, 2] ++ List.range' 3
          (steps.filter fun s : PStep => s.type = StepType.STAP).length ++
        [3 + (steps.filter fun s : PStep => s.type = StepType.STAP).length,
          3 + (steps.filter fun s : PStep => s.type = StepType.STAP).length + 1,
          3 + (steps.filter fun s : PStep => s.type = StepType.STAP).length + 2,
          3 + (steps.filter fun s : PStep => s.type = StepType.STAP).length + 3]),
        x < (steps.filter fun s : PStep => s.type = StepType.STAP).length + 7 := by
      intro x hx
      rw [List.mem_append, List.mem_append] at hx
      rcases hx with (hx | hx) | hx
      · simp only [List.mem_cons, List.not_mem_nil, or_false] at hx
        omega
      · rw [List.mem_range'_1] at hx
        omega
      · simp only [List.mem_cons, List.not_mem_nil, or_false] at hx
        omega
    have hhead : (([0, 1, 2] ++ List.range' 3
          (steps.filter fun s : PStep => s.type = StepType.STAP).length ++
        [3 + (steps.filter fun s : PStep => s.type = StepType.STAP).length,
          3 + (steps.filter fun s : PStep => s.type = StepType.STAP).length + 1,
          3 + (steps.filter fun s : PStep => s.type = StepType.STAP).length + 2,
          3 + (steps.filter fun s : PStep => s.type = StepType.STAP).length + 3])).Nodup := by
      refine List.Nodup.append (List.Nodup.append (by simp)
        (List.nodup_range' 3 (steps.filter fun s : PStep => s.type = StepType.STAP).length) ?_)
        (by simp) ?_
      · intro x hx hx2
        simp only [List.mem_cons, List.not_mem_nil, or_false] at hx
        rw [List.mem_range'_1] at hx2
        omega
      · intro x hx hx2
        simp only [List.mem_cons, List.not_mem_nil, or_false] at hx2
        rw [List.mem_append] at hx
        rcases hx with hx | hx
        · simp only [List.mem_cons, List.not_mem_nil, or_false] at hx
          omega
        · rw [List.mem_range'_1] at hx
          omega
    refine hhead.append hflat.1 ?_
    intro x hx hx2
    have h1 := hheadlt x hx
    have h2 := (hflat.2 x hx2).1
    omega

/-- Witness for the uid-uniqueness theorem at one RUST plus two STAP
steps. -/
theorem uidUniquenessBounded_witness :
    ((sampleProgram 2).filter fun s => s.type = .STAP).length ≤ 243 ∧
    (documentUids (buildDocument none (sampleProgram 2))).Nodup :=
  ⟨by decide, uidUniquenessBounded none (sampleProgram 2) (by decide)⟩

/-- Helper: when a sequential step exists, the RUST network's manager ends
exactly at 509 plus twice the sequential-step count. -/
theorem buildRustNetwork_uidState_some (parentUid : Nat) (steps : List PStep)
    (rustStep fs : PStep)
    (hfind : steps.find? (fun s => s.type = .STAP) = some fs) :
    (buildRustNetwork parentUid steps rustStep).1.uidState =
      509 + 2 * (steps.filter fun s => s.type = .STAP).length := by
  simp only [buildRustNetwork, hfind]
  set L := steps.filter fun s => decide (s.type = .STAP) with hL
  set t := if rustStep.description = "" then "RUST Logic" else rustStep.description
    with ht
  set N0 := Network.new parentUid t 500 with hN0
  set SA := addStepAccesses N0.1 L with hSA
  set GP := SA.1.addPart PartKind.A with hGP
  set CR := connectRestInputs GP.1 GP.2.id 0 SA.2 with hCR
  set SRP := CR.addPart PartKind.Sr with hSRP
  set AA := SRP.1.addAccess "Stap" fs.number with hAA
  set C1 := AA.1.connect AA.2.id none SRP.2.id "r1" false with hC1
  set C2 := C1.connect GP.2.id (some "out") SRP.2.id "s" false with hC2
  set AO := C2.addAccess "Stap" 0 with hAO
  have hSAspec := addStepAccesses_spec L N0.1
  have hSAlen : SA.2.length = L.length := by
    rw [hSA, hSAspec.2.1, List.length_range']
  have hSAuid : SA.1.uidState = 502 + L.length := by
    rw [hSA, hSAspec.2.2.2.1, (netInv_new parentUid 500 t).2.1]
  have hGPuid : GP.1.uidState = 503 + L.length := by
    rw [hGP, (addPart_spec SA.1 .A).2.2.2.1, hSAuid]
    omega
  have hCRuid : CR.uidState = 503 + 2 * L.length := by
    rw [hCR, (connectRestInputs_basic SA.2 0 GP.1 GP.2.id).1, hGPuid, hSAlen]
    omega
  have hSRPuid : SRP.1.uidState = 504 + 2 * L.length := by
    rw [hSRP, (addPart_spec CR .Sr).2.2.2.1, hCRuid]
    omega
  rw [connect_uidState, hAO, (addAccess_spec C2 "Stap" 0).2.2.2.1, hC2,
    connect_uidState, hC1, connect_uidState, hAA,
    (addAccess_spec SRP.1 "Stap" fs.number).2.2.2.1, hSRPuid]
  omega

/-- Helper: the first sequential-step network's title id is exactly the
first reserved base 1000. -/
theorem stepNetworks_head_title (pu prev : Nat) (st : PStep) (l : List PStep) :
    ∃ net rest, (buildStepNetworks pu 0 prev (st :: l)).1 = net :: rest ∧
      net.title.id = 1000 := by
  cases l with
  | nil =>
    refine ⟨(buildStepNetwork pu (1000 + 0 * 100) prev st none).1, [], rfl, ?_⟩
    rw [(buildStepNetwork_none_shape pu (1000 + 0 * 100) prev st).2.2.2.2.2.1]
  | cons st2 rest2 =>
    refine ⟨(buildStepNetwork pu (1000 + 0 * 100) prev st (some st2.number)).1,
      (buildStepNetworks
        (buildStepNetwork pu (1000 + 0 * 100) prev st (some st2.number)).2 1
        st.number (st2 :: rest2)).1, rfl, ?_⟩
    rw [(buildStepNetwork_some_shape pu (1000 + 0 * 100) prev st
      st2.number).2.2.2.2.2.1]

set_option maxRecDepth 8000 in
/-- Counterexample to C4 as stated: with 244 sequential steps the Rest
network's manager ends at 997, so its four serialization-time text-item ids
are 997..1000 and the id 1000 collides with the first step network's
reserved title id 1000 — the id 1000 occurs twice in the document. -/
theorem uidUniqueness_counterexample :
    ¬ (documentUids (buildDocument none (sampleProgram 244))).Nodup := by
  intro h
  have hfind : (sampleProgram 244).find? (fun s => s.type = .RUST) =
      some ⟨0, .RUST, ""⟩ := by decide
  have hfindS : (sampleProgram 244).find? (fun s => s.type = .STAP) =
      some ⟨1, .STAP, ""⟩ := by decide
  have hM244 : ((sampleProgram 244).filter
      fun s : PStep => s.type = StepType.STAP).length = 244 := by decide
  have hnets : (buildDocument none (sampleProgram 244)).networks =
      (buildRustNetwork 3 (sampleProgram 244) ⟨0, .RUST, ""⟩).1 ::
        (buildStepNetworks
          (buildRustNetwork 3 (sampleProgram 244) ⟨0, .RUST, ""⟩).2 0 0
          ((sampleProgram 244).filter
            fun s : PStep => s.type = StepType.STAP)).1 := by
    simp [buildDocument, hfind, MultilingualText.new]
  have hrustuid :
      (buildRustNetwork 3 (sampleProgram 244) ⟨0, .RUST, ""⟩).1.uidState =
        997 := by
    rw [buildRustNetwork_uidState_some 3 (sampleProgram 244) ⟨0, .RUST, ""⟩
      ⟨1, .STAP, ""⟩ hfindS, hM244]
  have h1000D : 1000 ∈ networkLocalUids
      (buildRustNetwork 3 (sampleProgram 244) ⟨0, .RUST, ""⟩).1 := by
    simp [networkLocalUids, hrustuid]
  obtain ⟨st, l, hfl⟩ : ∃ st l, ((sampleProgram 244).filter
      fun s : PStep => s.type = StepType.STAP) = st :: l := by
    refine List.exists_cons_of_ne_nil ?_
    intro hc
    rw [hc] at hM244
    simp at hM244
  obtain ⟨net1, rest, hSN, htitle⟩ := stepNetworks_head_title
    (buildRustNetwork 3 (sampleProgram 244) ⟨0, .RUST, ""⟩).2 0 st l
  have h1000E : 1000 ∈ (buildStepNetworks
      (buildRustNetwork 3 (sampleProgram 244) ⟨0, .RUST, ""⟩).2 0 0
      ((sampleProgram 244).filter
        fun s : PStep => s.type = StepType.STAP)).1.flatMap
          networkLocalUids := by
    rw [hfl, hSN, List.flatMap_cons, List.mem_append]
    left
    rw [networkLocalUids, ← htitle]
    exact List.mem_cons_self _ _
  simp only [documentUids, hnets, List.flatMap_cons] at h
  have hDE := (List.nodup_append.1 h).2.1
  have hdisj := (List.nodup_append.1 hDE).2.2
  exact hdisj h1000D h1000E

end StdWerk
